import Mathlib

/-
Verification development for the term-animation engine
(src/entity.rs and src/animation.rs).

Modelling conventions:
* `i16`/`i32` coordinates and counters are modelled as `Int`; none of the
  verified operations can overflow on the inputs considered, except the Rust
  `%` operator, whose two panicking cases (divisor zero, and
  `i16::MIN % -1`) are modelled explicitly by returning `none`.
* `usize` values (frame indices, counts) are modelled as `Nat`.
* A Rust panic (`panic!` / `todo!` macro) is modelled as `none` in an
  `Option`-valued function: the frame aborts.
* `HashMap<String, Entity>` is modelled as an association list
  `List (String × Entity)`; the list order stands for the (unspecified)
  iteration order of the hash map.  `HashSet<String>` is a duplicate-free
  `List String`, `HashSet<(String, String)>` a `List (String × String)`
  (the code's own `already_there` guard keeps it duplicate free).
* The boxed closures (`callback`, `coll_handler`, `death_callback`) are
  modelled by a presence flag on the entity plus an explicit `Hooks`
  environment supplying the closure bodies; the pipeline records every
  closure invocation in an event log.
* Terminal I/O (`target`, rendering, framerate tracking) is out of scope;
  `build_screen`, `display_screen` and `track_framerate` are no-ops in the
  source as given, so `animate` is modelled without them.
-/

namespace TermAnim

/-- Model of `Position` (entity.rs): signed integer 3D coordinate. -/
structure Position where
  x : Int
  y : Int
  z : Int
deriving DecidableEq

/-- Model of `CallbackResult` (entity.rs): the optional updates a behavior
callback proposes. -/
structure CallbackResult where
  new_x : Option Int
  new_y : Option Int
  new_z : Option Int
  new_frame : Option Nat
deriving DecidableEq

/-- Modelled from the spec: the per-axis optional follow offsets ("a follow
relationship: optional leader name plus a per-axis optional offset").
entity.rs declares `follow_offset: Option<u16>`, which does not type-check
against its use sites in animation.rs (`follow_offset.x`, `.y`, `.z`,
`.frame` in `move_followers`); the struct shape below is the one those use
sites and the spec require. -/
structure FollowOffset where
  x : Option Int
  y : Option Int
  z : Option Int
  frame : Option Nat
deriving DecidableEq

/-- Model of `Entity` (entity.rs).  `frames` is the number of animation
frames (`frames.len()`; the sprite contents are irrelevant to the core).
The three closure fields are modelled by presence flags (`has_callback`,
`has_coll_handler`, `has_death_callback`); their bodies live in a `Hooks`
environment.  `die_time` records only whether the field is `Some` (its
value is never read: the code hits a `todo!` abort whenever it is set). -/
structure Entity where
  name : String
  frames : Nat
  width : Int
  height : Int
  pos : Position
  physical : Bool
  depth : Int
  has_coll_handler : Bool
  wrap : Bool
  has_callback : Bool
  follow_entity : Option String
  follow_offset : FollowOffset
  current_frame : Nat
  die_offscreen : Bool
  die_time : Bool
  die_frame : Option Int
  has_death_callback : Bool
  die_entity : Option String
deriving DecidableEq

/-- Model of `Entity::default()` (the `#[derive(Default)]` on entity.rs):
empty name, no frames, everything zero / false / `None`. -/
def entityDefault : Entity :=
  { name := ""
    frames := 0
    width := 0
    height := 0
    pos := { x := 0, y := 0, z := 0 }
    physical := false
    depth := 0
    has_coll_handler := false
    wrap := false
    has_callback := false
    follow_entity := none
    follow_offset := { x := none, y := none, z := none, frame := none }
    current_frame := 0
    die_offscreen := false
    die_time := false
    die_frame := none
    has_death_callback := false
    die_entity := none }

/-- Model of the scheduler state `Animation` (animation.rs), restricted to
the fields the core pipeline reads: the entity map, the `physical_count`
cache and the canvas bounds.  The I/O fields (`target`, `bg`,
`track_framerate`, `framerate`, `frames_this_second`, `assumed_size`) never
influence the pipeline and are omitted. -/
structure Animation where
  entities : List (String × Entity)
  physical_count : Nat
  width : Int
  height : Int
deriving DecidableEq

/-- Model of `Animation::new`, minus the terminal-size query: the caller
supplies the canvas bounds. -/
def initState (w h : Int) : Animation :=
  { entities := [], physical_count := 0, width := w, height := h }

/- ------------------------------------------------------------------ -/
/- HashMap / HashSet operations on the association-list model          -/
/- ------------------------------------------------------------------ -/

/-- `HashMap::get`: first binding with the given key. -/
def lookupEnt : List (String × Entity) → String → Option Entity
  | [], _ => none
  | (k1, e) :: rest, k => if k1 = k then some e else lookupEnt rest k

/-- `HashMap::insert`: replace the binding in place if the key is present,
otherwise add a new binding. -/
def insertEnt : List (String × Entity) → String → Entity → List (String × Entity)
  | [], k, v => [(k, v)]
  | (k1, e) :: rest, k, v =>
    if k1 = k then (k1, v) :: rest else (k1, e) :: insertEnt rest k v

/-- `HashMap::remove_entry`: the removed value (the stored key equals the
queried key, so only the entity is returned) and the remaining map. -/
def removeEnt : List (String × Entity) → String → Option Entity × List (String × Entity)
  | [], _ => (none, [])
  | (k1, e) :: rest, k =>
    if k1 = k then (some e, rest)
    else
      let r := removeEnt rest k
      (r.1, (k1, e) :: r.2)

/-- `HashMap::get_mut` followed by `*entry = v`: replace the value at an
existing key, leave the map unchanged if the key is absent. -/
def updateEnt : List (String × Entity) → String → Entity → List (String × Entity)
  | [], _, _ => []
  | (k1, e) :: rest, k, v =>
    if k1 = k then (k1, v) :: rest else (k1, e) :: updateEnt rest k v

/-- `HashSet<String>::insert`: add the name unless already present. -/
def insName (l : List String) (n : String) : List String :=
  if n ∈ l then l else l ++ [n]

/-- The map keys are pairwise distinct (a `HashMap` invariant). -/
def NodupKeys (m : List (String × Entity)) : Prop :=
  (m.map Prod.fst).Nodup

/-- Number of entities in the map with `physical = true`. -/
def countPhysical (m : List (String × Entity)) : Nat :=
  m.countP fun p => p.2.physical

/- ------------------------------------------------------------------ -/
/- Entity setters (entity.rs)                                          -/
/- ------------------------------------------------------------------ -/

/-- Model of `Entity::set_x` (entity.rs lines 87-97).  With `wrap` set and
the new coordinate outside `[0, anim_width)` the code computes
`new_x % anim_width` with Rust's truncating `%` on `i16`; that operator
panics when the divisor is zero or on `i16::MIN % -1`, modelled by `none`.
Otherwise the coordinate is stored unconditionally. -/
def set_x (e : Entity) (new_x anim_width : Int) : Option Entity :=
  if e.wrap then
    if new_x ≥ anim_width ∨ new_x < 0 then
      if anim_width = 0 ∨ (new_x = -32768 ∧ anim_width = -1) then none
      else some { e with pos := { e.pos with x := Int.tmod new_x anim_width } }
    else some { e with pos := { e.pos with x := new_x } }
  else some { e with pos := { e.pos with x := new_x } }

/-- Model of `Entity::set_y` (entity.rs lines 98-108); same shape as
`set_x` with the canvas height. -/
def set_y (e : Entity) (new_y anim_height : Int) : Option Entity :=
  if e.wrap then
    if new_y ≥ anim_height ∨ new_y < 0 then
      if anim_height = 0 ∨ (new_y = -32768 ∧ anim_height = -1) then none
      else some { e with pos := { e.pos with y := Int.tmod new_y anim_height } }
    else some { e with pos := { e.pos with y := new_y } }
  else some { e with pos := { e.pos with y := new_y } }

/-- Model of `Entity::set_z` (entity.rs lines 109-111): unconditional. -/
def set_z (e : Entity) (new_z : Int) : Entity :=
  { e with pos := { e.pos with z := new_z } }

/-- Model of `Entity::set_frame` (entity.rs lines 113-119): succeeds when
`new_frame < frames.len()`; otherwise the code hits
`todo!("Handle errors: Bad frame assigned to {}", self.name)`, a process
abort, modelled by `none`. -/
def set_frame (e : Entity) (new_frame : Nat) : Option Entity :=
  if new_frame < e.frames then some { e with current_frame := new_frame }
  else none

/-- The value `set_x`/`set_y` stores when it does not abort: wrap the
coordinate by the truncating remainder when `wrap` is set and the value is
out of `[0, bound)`. -/
def wrapVal (w : Bool) (v bound : Int) : Int :=
  if w then (if v ≥ bound ∨ v < 0 then Int.tmod v bound else v) else v

/- ------------------------------------------------------------------ -/
/- Geometry (entity.rs)                                                -/
/- ------------------------------------------------------------------ -/

/-- Model of the nested `coord_intersects` helper of `Entity::intersects`
(entity.rs lines 121-124): half-open interval overlap on one axis. -/
def coord_intersects (my_coord other_coord my_d3 other_d3 : Int) : Bool :=
  decide ((other_coord ≤ my_coord ∧ my_coord < other_coord + other_d3)
    ∨ (my_coord ≤ other_coord ∧ other_coord < my_coord + my_d3))

/-- Model of `Entity::intersects` (entity.rs lines 120-128).  Note the
axis pairing of the source: the x comparison uses `height`, the y
comparison uses `width`, the z comparison uses `depth`. -/
def Entity.intersects (e other : Entity) : Bool :=
  coord_intersects e.pos.x other.pos.x e.height other.height
  && coord_intersects e.pos.y other.pos.y e.width other.width
  && coord_intersects e.pos.z other.pos.z e.depth other.depth

/- ------------------------------------------------------------------ -/
/- Collision index (animation.rs find_collisions)                      -/
/- ------------------------------------------------------------------ -/

/-- The `already_there` duplicate test inside `find_collisions`
(animation.rs lines 151-154). -/
def already_there (cols : List (String × String)) (a b : String) : Bool :=
  cols.any fun q => decide ((q.1 = a ∧ q.2 = b) ∨ (q.1 = b ∧ q.2 = a))

/-- One inner-loop iteration of `find_collisions`: skip self, record the
intersecting pair unless an equal pair (in either order) is present. -/
def collide_one (cols : List (String × String)) (me other : Entity) :
    List (String × String) :=
  if other.name = me.name then cols
  else if me.intersects other then
    if already_there cols me.name other.name then cols
    else cols ++ [(me.name, other.name)]
  else cols

/-- The inner loop of `find_collisions` (over all entity values). -/
def collide_inner (me : Entity) (others : List Entity)
    (cols : List (String × String)) : List (String × String) :=
  others.foldl (fun c o => collide_one c me o) cols

/-- The outer loop of `find_collisions`: for each `me` of `l` in turn, run
the inner loop over all values `vals` when `me` is physical, skip it
otherwise. -/
def fcOuter (vals l : List Entity) (cols : List (String × String)) :
    List (String × String) :=
  l.foldl (fun c me => if me.physical then collide_inner me vals c else c) cols

/-- Model of `Animation::find_collisions` (animation.rs lines 139-162).
The outer loop skips non-physical `me`; the inner loop runs over all
entity values. -/
def find_collisions (st : Animation) : List (String × String) :=
  fcOuter (st.entities.map Prod.snd) (st.entities.map Prod.snd) []

/-- Specification predicate for one recorded pair: distinct names, the
first member physical, and the two entities intersecting. -/
def SoundPair (vals : List Entity) (p : String × String) : Prop :=
  p.1 ≠ p.2 ∧ ∃ e1 ∈ vals, ∃ e2 ∈ vals,
    e1.name = p.1 ∧ e2.name = p.2 ∧ e1.physical = true ∧ e1.intersects e2 = true

/-- Two pairs are distinct even as unordered pairs. -/
def UDiff (p q : String × String) : Prop :=
  ¬ ((q.1 = p.1 ∧ q.2 = p.2) ∨ (q.1 = p.2 ∧ q.2 = p.1))

/- ------------------------------------------------------------------ -/
/- Hooks environment and event log                                     -/
/- ------------------------------------------------------------------ -/

/-- The bodies of the boxed closures stored on entities.  Each matches the
Rust closure signature: a behavior callback mutates its entity and the
scheduler and returns a `CallbackResult`; a collision handler mutates its
entity and the scheduler given a read-only view of the other entity; a
death callback mutates its entity (discarded: the entity is already
removed) and the scheduler. -/
structure Hooks where
  runCallback : Entity → Animation → Entity × Animation × CallbackResult
  runCollHandler : Entity → Animation → Entity → Entity × Animation
  runDeathCallback : Entity → Animation → Entity × Animation

/-- Instrumentation: one entry per closure invocation performed by the
pipeline.  A death event records the entity map passed to the death
callback (the live set at invocation time). -/
inductive Event where
  | callback (name : String)
  | collision (name other : String)
  | death (name : String) (entitiesAtCall : List (String × Entity))
deriving DecidableEq

/-- Hooks whose closures have no effect: the identity environment. -/
def noHooks : Hooks :=
  { runCallback := fun e st =>
      (e, st, { new_x := none, new_y := none, new_z := none, new_frame := none })
    runCollHandler := fun e st _ => (e, st)
    runDeathCallback := fun e st => (e, st) }

/- ------------------------------------------------------------------ -/
/- Stage 1: behavior callbacks (animation.rs do_callbacks)             -/
/- ------------------------------------------------------------------ -/

/-- Tail of the per-entity step of `do_callbacks`: invoke the behavior
callback if present (taken out for the call and put back afterwards) and
apply the returned optional fields through the setters, in source order
x, y, z, frame.  `set_x`/`set_y` use the *current* scheduler bounds and
`set_frame` can abort (`none`). -/
def dcCallback (H : Hooks) (deleted : List String) (st : Animation) (e : Entity) :
    Option (Entity × Animation × List String × List Event) :=
  if e.has_callback then
    let r := H.runCallback { e with has_callback := false } st
    match (match r.2.2.new_x with
           | some x => set_x r.1 x r.2.1.width
           | none => some r.1) with
    | none => none
    | some e2 =>
      match (match r.2.2.new_y with
             | some y => set_y e2 y r.2.1.height
             | none => some e2) with
      | none => none
      | some e3 =>
        let e4 := match r.2.2.new_z with
                  | some z => set_z e3 z
                  | none => e3
        match (match r.2.2.new_frame with
               | some f => set_frame e4 f
               | none => some e4) with
        | none => none
        | some e5 =>
          some ({ e5 with has_callback := true }, r.2.1, deleted, [Event.callback e.name])
  else some (e, st, deleted, [])

/-- Death-by-offscreen check of `do_callbacks` (animation.rs lines
104-112): mark dead and stop processing this entity when it left the
canvas. -/
def dcOffscreen (H : Hooks) (deleted : List String) (st : Animation) (e : Entity) :
    Option (Entity × Animation × List String × List Event) :=
  if e.die_offscreen = true ∧ (e.pos.x ≥ st.width ∨ e.pos.y ≥ st.height
      ∨ e.pos.x < -e.width ∨ e.pos.y < -e.height) then
    some (e, st, insName deleted e.name, [])
  else dcCallback H deleted st e

/-- Death-by-referenced-entity check of `do_callbacks` (animation.rs lines
97-103): mark dead when the referenced name is missing from the pre-frame
key list or already marked dead this pass. -/
def dcDieEntity (H : Hooks) (all_ents deleted : List String) (st : Animation)
    (e : Entity) : Option (Entity × Animation × List String × List Event) :=
  match e.die_entity with
  | some den =>
    if den ∉ all_ents ∨ den ∈ deleted then some (e, st, insName deleted e.name, [])
    else dcOffscreen H deleted st e
  | none => dcOffscreen H deleted st e

/-- One iteration of the `do_callbacks` loop (animation.rs lines 86-134):
abort on `die_time` (the `todo!`), decrement `die_frame` and mark dead at
`<= 0`, then the remaining checks and the callback. -/
def dcStep (H : Hooks) (all_ents deleted : List String) (st : Animation)
    (e : Entity) : Option (Entity × Animation × List String × List Event) :=
  if e.die_time then none
  else
    match e.die_frame with
    | some n =>
      let e2 := { e with die_frame := some (n - 1) }
      if n - 1 ≤ 0 then some (e2, st, insName deleted e2.name, [])
      else dcDieEntity H all_ents deleted st e2
    | none => dcDieEntity H all_ents deleted st e

/-- The `do_callbacks` loop over the pulled-out entity map, threading the
scheduler state (whose own entity map is empty for the duration of the
loop), the deleted set and the event log; the processed entities keep
their binding keys and their order. -/
def dcGo (H : Hooks) (all_ents : List String) (l : List (String × Entity))
    (st : Animation) (deleted : List String) :
    Option (List (String × Entity) × Animation × List String × List Event) :=
  match l with
  | [] => some ([], st, deleted, [])
  | (k, e) :: rest =>
    match dcStep H all_ents deleted st e with
    | none => none
    | some (e2, st2, deleted2, evs) =>
      match dcGo H all_ents rest st2 deleted2 with
      | none => none
      | some (pr, st3, deleted3, evs2) => some ((k, e2) :: pr, st3, deleted3, evs ++ evs2)

/-- Model of `Animation::do_callbacks` (animation.rs lines 80-138): snap
the key list, swap the entity map out (so callbacks see an empty map, and
anything they insert is discarded by the swap back), run the loop, swap
the processed entities back in.  Returns the new state, the deleted set
and the event log; `none` models a panic. -/
def do_callbacks (H : Hooks) (st : Animation) :
    Option (Animation × List String × List Event) :=
  let all_ents := st.entities.map Prod.fst
  match dcGo H all_ents st.entities { st with entities := [] } [] with
  | none => none
  | some (pr, st2, deleted, evs) => some ({ st2 with entities := pr }, deleted, evs)

/- ------------------------------------------------------------------ -/
/- Stage 2: collision resolution (animation.rs collision_handlers)     -/
/- ------------------------------------------------------------------ -/

/-- The `(Some, Some)` branch of `collStep`: run the two handlers (each
taken out for its call and put back; the second handler sees the first
member already mutated) on the scheduler whose map `m2` lacks both
members, then reinsert both under their keys. -/
def collBoth (H : Hooks) (st : Animation) (c : String × String)
    (e1 e2 : Entity) (m2 : List (String × Entity)) : Animation × List Event :=
  let st0 := { st with entities := m2 }
  let s1 := if e1.has_coll_handler then
      let q := H.runCollHandler { e1 with has_coll_handler := false } st0 e2
      ({ q.1 with has_coll_handler := true }, q.2, [Event.collision e1.name e2.name])
    else (e1, st0, ([] : List Event))
  let s2 := if e2.has_coll_handler then
      let q := H.runCollHandler { e2 with has_coll_handler := false } s1.2.1 s1.1
      ({ q.1 with has_coll_handler := true }, q.2, [Event.collision e2.name e1.name])
    else (e2, s1.2.1, ([] : List Event))
  ({ s2.2.1 with
     entities := insertEnt (insertEnt s2.2.1.entities c.1 s1.1) c.2 s2.1 },
   s1.2.2 ++ s2.2.2)

/-- One iteration of the `collision_handlers` loop (animation.rs lines
164-191): remove both members; if both are present run each one's handler
and reinsert both; if exactly one is present, reinsert it with no handler
call; if neither is present the code panics ("Something is very wrong"),
modelled by `none`. -/
def collStep (H : Hooks) (st : Animation) (c : String × String) :
    Option (Animation × List Event) :=
  match removeEnt st.entities c.1 with
  | (some e1, m1) =>
    match removeEnt m1 c.2 with
    | (some e2, m2) => some (collBoth H st c e1 e2 m2)
    | (none, _) => some ({ st with entities := insertEnt m1 c.1 e1 }, [])
  | (none, m1) =>
    match removeEnt m1 c.2 with
    | (some e2, m2) => some ({ st with entities := insertEnt m2 c.2 e2 }, [])
    | (none, _) => none

/-- Model of `Animation::collision_handlers` (animation.rs lines 163-192):
fold `collStep` over the detected pairs, accumulating the event log. -/
def collision_handlers (H : Hooks) (cols : List (String × String))
    (st : Animation) : Option (Animation × List Event) :=
  match cols with
  | [] => some (st, [])
  | c :: rest =>
    match collStep H st c with
    | none => none
    | some (st2, evs) =>
      match collision_handlers H rest st2 with
      | none => none
      | some (st3, evs2) => some (st3, evs ++ evs2)

/- ------------------------------------------------------------------ -/
/- Stage 3: death cleanup (animation.rs remove_deleted_entries)        -/
/- ------------------------------------------------------------------ -/

/-- Model of `Animation::remove_deleted_entries` (animation.rs lines
193-202): for each marked name, remove the entity (skipping names no
longer present) and invoke its death callback, if any, on the scheduler
whose map no longer contains it. -/
def remove_deleted_entries (H : Hooks) (deleted : List String) (st : Animation) :
    Animation × List Event :=
  match deleted with
  | [] => (st, [])
  | n :: rest =>
    let r := removeEnt st.entities n
    match r.1 with
    | some e =>
      let st1 := { st with entities := r.2 }
      if e.has_death_callback then
        let q := H.runDeathCallback { e with has_death_callback := false } st1
        let r2 := remove_deleted_entries H rest q.2
        (r2.1, Event.death n r.2 :: r2.2)
      else
        let r2 := remove_deleted_entries H rest st1
        (r2.1, r2.2)
    | none => remove_deleted_entries H rest st

/- ------------------------------------------------------------------ -/
/- Stage 4: follower propagation (animation.rs move_followers)         -/
/- ------------------------------------------------------------------ -/

/-- The `filter_map` collecting followers in `move_followers` (animation.rs
lines 204-212): clone each entity, take its `follow_entity` out of the
clone, keep the pairs. -/
def mfCollect (p : String × Entity) : Option (Entity × String) :=
  match p.2.follow_entity with
  | some fe => some ({ p.2 with follow_entity := none }, fe)
  | none => none

/-- Apply the configured follow offsets to a follower given its leader
(animation.rs lines 216-227), through the setters in source order; the
frame follow can abort through `set_frame`. -/
def mfApply (follower leader : Entity) (w h : Int) : Option Entity :=
  match (match follower.follow_offset.x with
         | some dx => set_x follower (dx + leader.pos.x) w
         | none => some follower) with
  | none => none
  | some f1 =>
    match (match follower.follow_offset.y with
           | some dy => set_y f1 (dy + leader.pos.y) h
           | none => some f1) with
    | none => none
    | some f2 =>
      let f3 := match follower.follow_offset.z with
                | some dz => set_z f2 (dz + leader.pos.z)
                | none => f2
      match follower.follow_offset.frame with
      | some df => set_frame f3 (df + leader.current_frame)
      | none => some f3

/-- The loop of `move_followers` (animation.rs lines 213-234): look the
leader up in the current map (so earlier iterations are visible), move the
follower if the leader exists, restore its `follow_entity`, and write it
back over its existing binding. -/
def mfGo (fl : List (Entity × String)) (st : Animation) : Option Animation :=
  match fl with
  | [] => some st
  | (follower, fname) :: rest =>
    let pr := match lookupEnt st.entities fname with
              | some leader => mfApply follower leader st.width st.height
              | none => some follower
    match pr with
    | none => none
    | some f2 =>
      let f3 := { f2 with follow_entity := some fname }
      mfGo rest { st with entities := updateEnt st.entities f3.name f3 }

/-- Model of `Animation::move_followers` (animation.rs lines 203-235). -/
def move_followers (st : Animation) : Option Animation :=
  mfGo (st.entities.filterMap mfCollect) st

/- ------------------------------------------------------------------ -/
/- The per-frame pipeline and the public mutators (animation.rs)       -/
/- ------------------------------------------------------------------ -/

/-- Model of `Animation::add_entity` (animation.rs lines 55-60): bump the
`physical_count` cache for a physical entity (it is never decremented
anywhere) and insert the entity keyed by its name. -/
def add_entity (st : Animation) (e : Entity) : Animation :=
  { st with
    physical_count := if e.physical then st.physical_count + 1 else st.physical_count
    entities := insertEnt st.entities e.name e }

/-- Model of `Animation::animate` (animation.rs lines 61-75): behavior
callbacks, then - only when the `physical_count` cache is positive -
collision detection and resolution, then death cleanup, then follower
propagation.  `build_screen`, `display_screen` and `track_framerate` are
no-ops in the source.  Returns the post-frame state and the event log;
`none` models a panic aborting the frame. -/
def animate (H : Hooks) (st : Animation) : Option (Animation × List Event) :=
  match do_callbacks H st with
  | none => none
  | some (st1, deleted, ev1) =>
    match (if st1.physical_count > 0
           then collision_handlers H (find_collisions st1) st1
           else some (st1, [])) with
    | none => none
    | some (st2, ev2) =>
      let r3 := remove_deleted_entries H deleted st2
      match move_followers r3.1 with
      | none => none
      | some st4 => some (st4, ev1 ++ ev2 ++ r3.2)

/-- One external operation on the scheduler, for stating trace
invariants. -/
inductive Op where
  | add (e : Entity)
  | animate
deriving DecidableEq

/-- Run a sequence of `add_entity` / `animate` calls. -/
def runOps (H : Hooks) (ops : List Op) (st : Animation) : Option Animation :=
  match ops with
  | [] => some st
  | Op.add e :: rest => runOps H rest (add_entity st e)
  | Op.animate :: rest =>
    match animate H st with
    | none => none
    | some r => runOps H rest r.1

/-- The entities inserted by a trace. -/
def opEnts : List Op → List Entity
  | [] => []
  | Op.add e :: rest => e :: opEnts rest
  | Op.animate :: rest => opEnts rest

/-- Number of physical entities inserted by a trace. -/
def physAdds (ops : List Op) : Nat :=
  (opEnts ops).countP fun e => e.physical

/- ------------------------------------------------------------------ -/
/- Predicates and pure replay functions for the hook-free pipeline     -/
/- ------------------------------------------------------------------ -/

/-- An entity whose `do_callbacks` step runs no closure and cannot abort:
`die_time` unset and no behavior callback. -/
def tame (e : Entity) : Prop :=
  e.die_time = false ∧ e.has_callback = false

/-- An entity that never causes any hook invocation in the pipeline:
no closures at all, no `die_time`, and no follow reference. -/
def plainEnt (e : Entity) : Prop :=
  e.die_time = false ∧ e.has_callback = false ∧ e.has_coll_handler = false ∧
  e.has_death_callback = false ∧ e.follow_entity = none

/-- The mutation the `do_callbacks` step applies to a tame entity:
decrement `die_frame` when present, leave everything else alone. -/
def plainUpd (e : Entity) : Entity :=
  match e.die_frame with
  | some n => { e with die_frame := some (n - 1) }
  | none => e

/-- Death-by-offscreen decision, mirroring `dcOffscreen`. -/
def dies3 (w h : Int) (e : Entity) : Bool :=
  if e.die_offscreen = true ∧ (e.pos.x ≥ w ∨ e.pos.y ≥ h
      ∨ e.pos.x < -e.width ∨ e.pos.y < -e.height) then true
  else false

/-- Death-by-referenced-entity decision, mirroring `dcDieEntity`. -/
def dies2 (all_ents deleted : List String) (w h : Int) (e : Entity) : Bool :=
  match e.die_entity with
  | some den => if den ∉ all_ents ∨ den ∈ deleted then true else dies3 w h e
  | none => dies3 w h e

/-- Whether a tame entity is marked dead by its `do_callbacks` step, given
the deleted set accumulated so far. -/
def dies1 (all_ents deleted : List String) (w h : Int) (e : Entity) : Bool :=
  match e.die_frame with
  | some n => if n - 1 ≤ 0 then true else dies2 all_ents deleted w h e
  | none => dies2 all_ents deleted w h e

/-- The deleted-name set produced by a tame `do_callbacks` pass. -/
def delFold (all_ents : List String) (w h : Int) :
    List (String × Entity) → List String → List String
  | [], d => d
  | p :: rest, d =>
    delFold all_ents w h rest
      (if dies1 all_ents d w h p.2 = true then insName d p.2.name else d)

/-- Remove every listed name from the map, in order. -/
def removeAllEnt : List String → List (String × Entity) → List (String × Entity)
  | [], m => m
  | n :: rest, m => removeAllEnt rest (removeEnt m n).2

/-- The follower position produced by `mfApply` when it does not abort:
each configured axis takes the leader coordinate plus the offset through
the wrap-respecting setter value; unconfigured axes keep their value. -/
def followedPos (f leader : Entity) (w h : Int) : Position :=
  { x := match f.follow_offset.x with
         | some dx => wrapVal f.wrap (dx + leader.pos.x) w
         | none => f.pos.x
    y := match f.follow_offset.y with
         | some dy => wrapVal f.wrap (dy + leader.pos.y) h
         | none => f.pos.y
    z := match f.follow_offset.z with
         | some dz => dz + leader.pos.z
         | none => f.pos.z }

/- ------------------------------------------------------------------ -/
/- Concrete states used by counterexamples and witnesses               -/
/- ------------------------------------------------------------------ -/

def nmA : String := "A"
def nmB : String := "B"
def nmC : String := "C"
def nmE : String := "E"
def nmF : String := "F"
def nmL : String := "L"
def nmP : String := "P"

/-- A physical 1x1x1 entity at the origin. -/
def entC1A : Entity :=
  { entityDefault with name := nmA, physical := true, width := 1, height := 1, depth := 1 }

/-- A non-physical 1x1x1 entity at the origin. -/
def entC1B : Entity :=
  { entityDefault with name := nmB, physical := false, width := 1, height := 1, depth := 1 }

def stC1 : Animation :=
  { entities := [(nmA, entC1A), (nmB, entC1B)], physical_count := 1, width := 80, height := 24 }

/-- Two physical 1x1x1 entities at the origin, for the amended C1 witness. -/
def entC1WA : Entity :=
  { entityDefault with name := nmA, physical := true, width := 1, height := 1, depth := 1 }

def entC1WB : Entity :=
  { entityDefault with name := nmB, physical := true, width := 1, height := 1, depth := 1 }

def stC1W : Animation :=
  { entities := [(nmA, entC1WA), (nmB, entC1WB)], physical_count := 2, width := 80, height := 24 }

/-- An entity with exactly one animation frame. -/
def entC2 : Entity := { entityDefault with name := nmE, frames := 1 }

/-- A wrapping entity. -/
def entC3 : Entity := { entityDefault with name := nmE, wrap := true }

/-- C4: entity that dies by countdown this frame. -/
def entC4A : Entity := { entityDefault with name := nmA, die_frame := some 1 }

/-- C4: entity that dies when `nmA` is gone. -/
def entC4B : Entity := { entityDefault with name := nmB, die_entity := some nmA }

/-- C4 counterexample state: iteration order processes B before A. -/
def stC4 : Animation :=
  { entities := [(nmB, entC4B), (nmA, entC4A)], physical_count := 0, width := 80, height := 24 }

/-- C4 witness state: iteration order processes A before B. -/
def stC4W : Animation :=
  { entities := [(nmA, entC4A), (nmB, entC4B)], physical_count := 0, width := 80, height := 24 }

/-- A physical entity that dies by countdown after one frame. -/
def entC5 : Entity := { entityDefault with name := nmP, physical := true, die_frame := some 1 }

def stC5 : Animation := add_entity (initState 80 24) entC5

def opsC5 : List Op := [Op.add entC5, Op.animate]

/-- The state after running `opsC5` from the initial state. -/
def stC5res : Animation :=
  { entities := [], physical_count := 1, width := 80, height := 24 }

/-- C6 witness state: a single live entity named `nmA`. -/
def entC6 : Entity := { entityDefault with name := nmA, physical := true }

def stC6 : Animation :=
  { entities := [(nmA, entC6)], physical_count := 1, width := 80, height := 24 }

/-- C7 witness entity: dies by countdown this frame, has a death callback. -/
def entC7 : Entity :=
  { entityDefault with name := nmE, die_frame := some 1, has_death_callback := true }

def stC7 : Animation :=
  { entities := [(nmE, entC7)], physical_count := 0, width := 80, height := 24 }

/-- C8 witness leader at (5, 5, 0). -/
def entC8L : Entity :=
  { entityDefault with name := nmL, pos := { x := 5, y := 5, z := 0 } }

/-- C8 witness follower at (1, 9, 4) with only an x offset of 2. -/
def entC8F : Entity :=
  { entityDefault with
    name := nmF
    pos := { x := 1, y := 9, z := 4 }
    follow_entity := some nmL
    follow_offset := { x := some 2, y := none, z := none, frame := none } }

def stC8 : Animation :=
  { entities := [(nmL, entC8L), (nmF, entC8F)], physical_count := 0, width := 80, height := 24 }

/-- A wrapping entity for the C10 witness. -/
def entC10 : Entity := { entityDefault with name := nmE, wrap := true }

/- ================================================================== -/
/- Theorems                                                            -/
/- ================================================================== -/

/- Helper lemmas on the truncating remainder. -/

theorem tmod_neg_one {W : Int} (h : 1 < W) : Int.tmod (-1) W = -1 := by
  obtain ⟨n, rfl⟩ : ∃ n : Nat, W = (n : Int) := ⟨W.toNat, by omega⟩
  have hn : 1 < n := by exact_mod_cast h
  show Int.tmod (Int.negSucc 0) (Int.ofNat n) = -1
  simp only [Int.tmod]
  rw [Nat.mod_eq_of_lt (by omega)]
  rfl

/- ------------------------------------------------------------------ -/
/- C9: symmetry of intersects                                          -/
/- ------------------------------------------------------------------ -/

theorem coord_intersects_symm (x1 x2 d1 d2 : Int) :
    coord_intersects x1 x2 d1 d2 = coord_intersects x2 x1 d2 d1 := by
  unfold coord_intersects
  rw [decide_eq_decide]
  exact or_comm

/-- C9: for every two entities `a` and `b` (arbitrary integer positions
and extents), `intersects a b` equals `intersects b a`. -/
theorem intersects_symm (a b : Entity) : a.intersects b = b.intersects a := by
  unfold Entity.intersects
  rw [coord_intersects_symm a.pos.x b.pos.x,
    coord_intersects_symm a.pos.y b.pos.y,
    coord_intersects_symm a.pos.z b.pos.z]

/- ------------------------------------------------------------------ -/
/- C10: wrapping setters with a zero canvas bound abort                -/
/- ------------------------------------------------------------------ -/

/-- C10: for every entity with `wrap = true` and every new coordinate,
`set_x(new_x, 0)` and `set_y(new_y, 0)` hit the remainder-by-zero panic
(modelled by `none`) instead of setting the coordinate: the wrapping
setters are not total when the canvas bound is zero. -/
theorem set_xy_bound_zero_aborts (e : Entity) (v : Int) (hw : e.wrap = true) :
    set_x e v 0 = none ∧ set_y e v 0 = none := by
  have hc : v ≥ (0 : Int) ∨ v < 0 := le_or_lt 0 v
  constructor
  · unfold set_x
    rw [hw, if_pos rfl, if_pos hc, if_pos (Or.inl rfl)]
  · unfold set_y
    rw [hw, if_pos rfl, if_pos hc, if_pos (Or.inl rfl)]

/-- Witness for C10 at a concrete wrapping entity and coordinate 5. -/
theorem set_xy_bound_zero_aborts_witness :
    entC10.wrap = true ∧ (set_x entC10 5 0 = none ∧ set_y entC10 5 0 = none) :=
  ⟨rfl, set_xy_bound_zero_aborts entC10 5 rfl⟩

/- ------------------------------------------------------------------ -/
/- C2: set_frame out of range is a process abort, in range succeeds    -/
/- ------------------------------------------------------------------ -/

/-- C2: evaluation at the failing input.  For the one-frame entity
`entC2`, `set_frame 0` succeeds and sets `current_frame`, but
`set_frame 1` reaches the `todo!` panic (modelled `none`): the error is a
process abort, not the recoverable `InvalidFrame` error the claim
requires, so neither `current_frame` preservation nor pipeline
continuation is possible. -/
theorem set_frame_todo_aborts :
    set_frame entC2 0 = some { entC2 with current_frame := 0 } ∧
    set_frame entC2 1 = none := by
  constructor <;> rfl

/- ------------------------------------------------------------------ -/
/- C3: wrapping setters on W and -1                                    -/
/- ------------------------------------------------------------------ -/

/-- Counterexample for C3: with canvas width 10, `set_x (-1)` on a
wrapping entity stores `-1` (Rust's truncating remainder keeps the sign of
the dividend), which is not in `[0, 10)` as the claim requires. -/
theorem set_x_neg_one_cex :
    (set_x entC3 (-1) 10).map (fun e2 => e2.pos.x) = some (-1) ∧
    ¬ (0 : Int) ≤ -1 := by
  constructor
  · rfl
  · decide

/-- C3 (amended): for every wrapping entity and positive canvas bound `W`,
`set_x W W` stores `0`; but `set_x (-1) W` stores `Int.tmod (-1) W`, which
is `-1` (not a value of `[0, W)`) whenever `1 < W`; likewise for
`set_y`. -/
theorem set_wrap_amended (e : Entity) (W : Int) (hw : e.wrap = true) (hW : 0 < W) :
    set_x e W W = some { e with pos := { e.pos with x := 0 } } ∧
    set_y e W W = some { e with pos := { e.pos with y := 0 } } ∧
    (1 < W →
      set_x e (-1) W = some { e with pos := { e.pos with x := -1 } } ∧
      set_y e (-1) W = some { e with pos := { e.pos with y := -1 } }) := by
  have hc1 : W ≥ W ∨ W < 0 := Or.inl le_rfl
  have hg1 : ¬ (W = 0 ∨ (W = -32768 ∧ W = -1)) := by omega
  refine ⟨?_, ?_, fun hW2 => ?_⟩
  · unfold set_x
    rw [hw, if_pos rfl, if_pos hc1, if_neg hg1, Int.tmod_self]
  · unfold set_y
    rw [hw, if_pos rfl, if_pos hc1, if_neg hg1, Int.tmod_self]
  · have hc2 : (-1 : Int) ≥ W ∨ (-1 : Int) < 0 := Or.inr (by omega)
    have hg2 : ¬ ((-1 : Int) = -32768 ∧ W = -1) := by omega
    have hg3 : ¬ (W = 0 ∨ ((-1 : Int) = -32768 ∧ W = -1)) := by omega
    constructor
    · unfold set_x
      rw [hw, if_pos rfl, if_pos hc2, if_neg hg3, tmod_neg_one hW2]
    · unfold set_y
      rw [hw, if_pos rfl, if_pos hc2, if_neg hg3, tmod_neg_one hW2]

/-- Witness for the amended C3 at `W = 10`. -/
theorem set_wrap_amended_witness :
    (entC3.wrap = true ∧ (0 : Int) < 10) ∧
    set_x entC3 10 10 = some { entC3 with pos := { entC3.pos with x := 0 } } ∧
    set_x entC3 (-1) 10 = some { entC3 with pos := { entC3.pos with x := -1 } } := by
  refine ⟨⟨rfl, by decide⟩, ?_, ?_⟩
  · exact (set_wrap_amended entC3 10 rfl (by decide)).1
  · exact ((set_wrap_amended entC3 10 rfl (by decide)).2.2 (by decide)).1

/- ------------------------------------------------------------------ -/
/- Association-list map lemmas                                         -/
/- ------------------------------------------------------------------ -/

theorem lookupEnt_insertEnt_self (m : List (String × Entity)) (k : String) (v : Entity) :
    lookupEnt (insertEnt m k v) k = some v := by
  induction m with
  | nil => simp [insertEnt, lookupEnt]
  | cons p rest ih =>
    obtain ⟨k1, e⟩ := p
    by_cases h : k1 = k
    · simp [insertEnt, lookupEnt, h]
    · simp [insertEnt, lookupEnt, h, ih]

theorem lookupEnt_insertEnt_ne (m : List (String × Entity)) (k n : String) (v : Entity)
    (h : n ≠ k) : lookupEnt (insertEnt m k v) n = lookupEnt m n := by
  have hkn : ¬ k = n := fun hh => h hh.symm
  induction m with
  | nil => simp [insertEnt, lookupEnt, hkn]
  | cons p rest ih =>
    obtain ⟨k1, e⟩ := p
    by_cases h1 : k1 = k
    · simp [insertEnt, lookupEnt, h1, hkn]
    · by_cases h2 : k1 = n
      · simp [insertEnt, lookupEnt, h1, h2, h]
      · simp [insertEnt, lookupEnt, h1, h2, ih]

theorem removeEnt_fst (m : List (String × Entity)) (k : String) :
    (removeEnt m k).1 = lookupEnt m k := by
  induction m with
  | nil => simp [removeEnt, lookupEnt]
  | cons p rest ih =>
    obtain ⟨k1, e⟩ := p
    by_cases h : k1 = k
    · simp [removeEnt, lookupEnt, h]
    · simp [removeEnt, lookupEnt, h, ih]

theorem removeEnt_snd_none (m : List (String × Entity)) (k : String)
    (h : lookupEnt m k = none) : (removeEnt m k).2 = m := by
  induction m with
  | nil => simp [removeEnt]
  | cons p rest ih =>
    obtain ⟨k1, e⟩ := p
    by_cases h1 : k1 = k
    · simp [lookupEnt, h1] at h
    · simp [lookupEnt, h1] at h
      simp [removeEnt, h1, ih h]

theorem lookupEnt_removeEnt_ne (m : List (String × Entity)) (k n : String)
    (h : n ≠ k) : lookupEnt (removeEnt m k).2 n = lookupEnt m n := by
  have hkn : ¬ k = n := fun hh => h hh.symm
  induction m with
  | nil => simp [removeEnt]
  | cons p rest ih =>
    obtain ⟨k1, e⟩ := p
    by_cases h1 : k1 = k
    · simp [removeEnt, lookupEnt, h1, hkn]
    · by_cases h2 : k1 = n
      · simp [removeEnt, lookupEnt, h1, h2, h]
      · simp [removeEnt, lookupEnt, h1, h2, ih]

theorem mem_removeEnt_subset (m : List (String × Entity)) (k : String)
    (p : String × Entity) (h : p ∈ (removeEnt m k).2) : p ∈ m := by
  induction m with
  | nil => simp [removeEnt] at h
  | cons q rest ih =>
    obtain ⟨k1, e⟩ := q
    by_cases h1 : k1 = k
    · simp [removeEnt, h1] at h
      exact List.mem_cons_of_mem _ h
    · simp only [removeEnt, h1, if_false, List.mem_cons] at h
      rcases h with h | h
      · exact h ▸ List.mem_cons_self _ _
      · exact List.mem_cons_of_mem _ (ih h)

theorem NodupKeys_removeEnt (m : List (String × Entity)) (k : String)
    (h : NodupKeys m) : NodupKeys (removeEnt m k).2 := by
  induction m with
  | nil => simpa [removeEnt] using h
  | cons q rest ih =>
    obtain ⟨k1, e⟩ := q
    unfold NodupKeys at h
    simp only [List.map_cons, List.nodup_cons] at h
    by_cases h1 : k1 = k
    · simpa [removeEnt, h1, NodupKeys] using h.2
    · have hr := ih h.2
      unfold NodupKeys at hr ⊢
      simp only [removeEnt, h1, if_false, List.map_cons, List.nodup_cons]
      refine ⟨fun hc => h.1 ?_, hr⟩
      obtain ⟨p, hp, hpk⟩ := List.mem_map.mp hc
      exact List.mem_map.mpr ⟨p, mem_removeEnt_subset rest k p hp, hpk⟩

theorem lookupEnt_eq_none_iff (m : List (String × Entity)) (k : String) :
    lookupEnt m k = none ↔ ∀ p ∈ m, p.1 ≠ k := by
  induction m with
  | nil => simp [lookupEnt]
  | cons q rest ih =>
    obtain ⟨k1, e⟩ := q
    by_cases h : k1 = k
    · simp [lookupEnt, h]
    · simp [lookupEnt, h, ih]

theorem lookupEnt_removeEnt_self (m : List (String × Entity)) (k : String)
    (h : NodupKeys m) : lookupEnt (removeEnt m k).2 k = none := by
  induction m with
  | nil => simp [removeEnt, lookupEnt]
  | cons q rest ih =>
    obtain ⟨k1, e⟩ := q
    unfold NodupKeys at h
    simp only [List.map_cons, List.nodup_cons] at h
    by_cases h1 : k1 = k
    · subst h1
      rw [lookupEnt_eq_none_iff]
      intro p hp hpk
      simp only [removeEnt, if_pos rfl] at hp
      exact h.1 (List.mem_map.mpr ⟨p, hp, hpk⟩)
    · simp [removeEnt, h1, lookupEnt, ih h.2]

theorem lookupEnt_some_mem (m : List (String × Entity)) (k : String) (v : Entity)
    (h : lookupEnt m k = some v) : (k, v) ∈ m := by
  induction m with
  | nil => simp [lookupEnt] at h
  | cons q rest ih =>
    obtain ⟨k1, e⟩ := q
    by_cases h1 : k1 = k
    · simp only [lookupEnt, if_pos h1, Option.some.injEq] at h
      refine List.mem_cons.mpr (Or.inl ?_)
      rw [Prod.ext_iff]
      exact ⟨h1.symm, h.symm⟩
    · simp only [lookupEnt, h1, if_false] at h
      exact List.mem_cons_of_mem _ (ih h)

theorem mem_insertEnt (m : List (String × Entity)) (k : String) (v : Entity)
    (p : String × Entity) (h : p ∈ insertEnt m k v) : p = (k, v) ∨ p ∈ m := by
  induction m with
  | nil => simpa [insertEnt] using h
  | cons q rest ih =>
    obtain ⟨k1, e⟩ := q
    by_cases h1 : k1 = k
    · rw [show insertEnt ((k1, e) :: rest) k v = (k1, v) :: rest by
        simp [insertEnt, h1]] at h
      rcases List.mem_cons.mp h with h2 | h2
      · exact Or.inl (by rw [h2, h1])
      · exact Or.inr (List.mem_cons_of_mem _ h2)
    · rw [show insertEnt ((k1, e) :: rest) k v = (k1, e) :: insertEnt rest k v by
        simp [insertEnt, h1]] at h
      rcases List.mem_cons.mp h with h2 | h2
      · exact Or.inr (by rw [h2]; exact List.mem_cons_self _ _)
      · rcases ih h2 with h3 | h3
        · exact Or.inl h3
        · exact Or.inr (List.mem_cons_of_mem _ h3)

theorem keys_insertEnt (m : List (String × Entity)) (k : String) (v : Entity) :
    (insertEnt m k v).map Prod.fst = if k ∈ m.map Prod.fst then m.map Prod.fst
      else m.map Prod.fst ++ [k] := by
  induction m with
  | nil => simp [insertEnt]
  | cons q rest ih =>
    obtain ⟨k1, e⟩ := q
    by_cases h1 : k1 = k
    · simp [insertEnt, h1]
    · have hkk1 : ¬ k = k1 := fun hh => h1 hh.symm
      by_cases h2 : k ∈ rest.map Prod.fst
      · simp [insertEnt, h1, ih, h2, hkk1]
      · simp [insertEnt, h1, ih, h2, hkk1]

theorem NodupKeys_insertEnt (m : List (String × Entity)) (k : String) (v : Entity)
    (h : NodupKeys m) : NodupKeys (insertEnt m k v) := by
  unfold NodupKeys at h ⊢
  rw [keys_insertEnt]
  by_cases h2 : k ∈ m.map Prod.fst
  · simpa [h2] using h
  · simp only [h2, if_false]
    refine List.Nodup.append h (List.nodup_singleton k) ?_
    intro a ha hak
    rw [List.mem_singleton] at hak
    exact h2 (hak ▸ ha)

theorem insertEnt_of_not_mem (m : List (String × Entity)) (k : String) (v : Entity)
    (h : k ∉ m.map Prod.fst) : insertEnt m k v = m ++ [(k, v)] := by
  induction m with
  | nil => simp [insertEnt]
  | cons q rest ih =>
    obtain ⟨k1, e⟩ := q
    simp only [List.map_cons, List.mem_cons] at h
    push_neg at h
    have h1 : ¬ k1 = k := fun hh => h.1 hh.symm
    simp [insertEnt, h1, ih h.2]

theorem removeEnt_perm (m : List (String × Entity)) (k : String) (e : Entity)
    (h : (removeEnt m k).1 = some e) : m.Perm ((k, e) :: (removeEnt m k).2) := by
  induction m with
  | nil => simp [removeEnt] at h
  | cons q rest ih =>
    obtain ⟨k1, e1⟩ := q
    by_cases h1 : k1 = k
    · rw [show removeEnt ((k1, e1) :: rest) k = (some e1, rest) by
        simp [removeEnt, h1]] at h ⊢
      simp only [Option.some.injEq] at h
      rw [← h, ← h1]
    · rw [show removeEnt ((k1, e1) :: rest) k =
          ((removeEnt rest k).1, (k1, e1) :: (removeEnt rest k).2) by
        simp [removeEnt, h1]] at h ⊢
      exact ((ih h).cons (k1, e1)).trans (List.Perm.swap _ _ _)

theorem updateEnt_eq_of_lookup (m : List (String × Entity)) (k : String) (v : Entity)
    (h : lookupEnt m k = some v) : updateEnt m k v = m := by
  induction m with
  | nil => simp [updateEnt]
  | cons q rest ih =>
    obtain ⟨k1, e⟩ := q
    by_cases h1 : k1 = k
    · simp only [lookupEnt, if_pos h1, Option.some.injEq] at h
      simp [updateEnt, h1, h]
    · simp only [lookupEnt, h1, if_false] at h
      simp [updateEnt, h1, ih h]

theorem lookupEnt_updateEnt_self (m : List (String × Entity)) (k : String)
    (v w : Entity) (h : lookupEnt m k = some w) :
    lookupEnt (updateEnt m k v) k = some v := by
  induction m with
  | nil => simp [lookupEnt] at h
  | cons q rest ih =>
    obtain ⟨k1, e⟩ := q
    by_cases h1 : k1 = k
    · simp [updateEnt, lookupEnt, h1]
    · simp only [lookupEnt, h1, if_false] at h
      simp [updateEnt, lookupEnt, h1, ih h]

theorem lookupEnt_updateEnt_ne (m : List (String × Entity)) (k n : String)
    (v : Entity) (h : n ≠ k) : lookupEnt (updateEnt m k v) n = lookupEnt m n := by
  induction m with
  | nil => simp [updateEnt]
  | cons q rest ih =>
    obtain ⟨k1, e⟩ := q
    have hkn : ¬ k = n := fun hh => h hh.symm
    by_cases h1 : k1 = k
    · simp [updateEnt, lookupEnt, h1, hkn]
    · by_cases h2 : k1 = n
      · simp [updateEnt, lookupEnt, h1, h2, h]
      · simp [updateEnt, lookupEnt, h1, h2, ih]

/- ------------------------------------------------------------------ -/
/- C6: resolution of a pair with missing members                       -/
/- ------------------------------------------------------------------ -/

theorem removeEnt_eq_none (m : List (String × Entity)) (k : String)
    (h : lookupEnt m k = none) : removeEnt m k = (none, m) := by
  have h1 : (removeEnt m k).1 = none := by rw [removeEnt_fst]; exact h
  have h2 : (removeEnt m k).2 = m := removeEnt_snd_none _ _ h
  exact Prod.ext h1 h2

theorem collStep_first_present (H : Hooks) (st : Animation) (c : String × String)
    (e1 : Entity) (h1 : lookupEnt st.entities c.1 = some e1)
    (h2 : lookupEnt st.entities c.2 = none) :
    collStep H st c =
      some ({ st with entities := insertEnt (removeEnt st.entities c.1).2 c.1 e1 }, []) := by
  have hne : c.2 ≠ c.1 := fun hh => by rw [hh, h1] at h2; cases h2
  rcases hM : removeEnt st.entities c.1 with ⟨o1, M1⟩
  have ho1 : o1 = some e1 := by
    have hf := removeEnt_fst st.entities c.1
    rw [hM, h1] at hf
    exact hf
  subst ho1
  have hM2 : (removeEnt st.entities c.1).2 = M1 := by rw [hM]
  have hl2 : lookupEnt M1 c.2 = none := by
    rw [← hM2, lookupEnt_removeEnt_ne _ _ _ hne]; exact h2
  unfold collStep
  rw [hM]
  simp only [removeEnt_eq_none M1 c.2 hl2]

theorem collStep_second_present (H : Hooks) (st : Animation) (c : String × String)
    (e2 : Entity) (h1 : lookupEnt st.entities c.1 = none)
    (h2 : lookupEnt st.entities c.2 = some e2) :
    collStep H st c =
      some ({ st with entities := insertEnt (removeEnt st.entities c.2).2 c.2 e2 }, []) := by
  rcases hM : removeEnt st.entities c.2 with ⟨o2, M2⟩
  have ho2 : o2 = some e2 := by
    have hf := removeEnt_fst st.entities c.2
    rw [hM, h2] at hf
    exact hf
  subst ho2
  unfold collStep
  rw [removeEnt_eq_none st.entities c.1 h1]
  simp only [hM]

theorem collStep_both_missing (H : Hooks) (st : Animation) (c : String × String)
    (h1 : lookupEnt st.entities c.1 = none) (h2 : lookupEnt st.entities c.2 = none) :
    collStep H st c = none := by
  unfold collStep
  rw [removeEnt_eq_none st.entities c.1 h1]
  simp only [removeEnt_eq_none st.entities c.2 h2]

theorem lookupEnt_reinsert (m : List (String × Entity)) (k : String) (e : Entity)
    (h : lookupEnt m k = some e) (n : String) :
    lookupEnt (insertEnt (removeEnt m k).2 k e) n = lookupEnt m n := by
  by_cases hn : n = k
  · subst hn
    rw [lookupEnt_insertEnt_self, h]
  · rw [lookupEnt_insertEnt_ne _ _ _ _ hn, lookupEnt_removeEnt_ne _ _ _ hn]

/-- C6: when resolving a detected colliding pair, if exactly one member is
missing from the live set at resolution time, the present member is
reinserted, no collision handler runs (empty event log) and the entity map
is unchanged as a key-value mapping; if both members are missing, the
frame aborts (the source `panic!`, modelled `none`). -/
theorem collision_pair_missing (H : Hooks) (st : Animation) (c : String × String) :
    (∀ e1, lookupEnt st.entities c.1 = some e1 → lookupEnt st.entities c.2 = none →
      ∃ m2, collision_handlers H [c] st = some ({ st with entities := m2 }, []) ∧
        ∀ n, lookupEnt m2 n = lookupEnt st.entities n) ∧
    (∀ e2, lookupEnt st.entities c.1 = none → lookupEnt st.entities c.2 = some e2 →
      ∃ m2, collision_handlers H [c] st = some ({ st with entities := m2 }, []) ∧
        ∀ n, lookupEnt m2 n = lookupEnt st.entities n) ∧
    (lookupEnt st.entities c.1 = none → lookupEnt st.entities c.2 = none →
      collision_handlers H [c] st = none) := by
  refine ⟨fun e1 h1 h2 => ?_, fun e2 h1 h2 => ?_, fun h1 h2 => ?_⟩
  · refine ⟨insertEnt (removeEnt st.entities c.1).2 c.1 e1, ?_, fun n => lookupEnt_reinsert _ _ _ h1 n⟩
    simp only [collision_handlers, collStep_first_present H st c e1 h1 h2, List.append_nil]
  · refine ⟨insertEnt (removeEnt st.entities c.2).2 c.2 e2, ?_, fun n => lookupEnt_reinsert _ _ _ h2 n⟩
    simp only [collision_handlers, collStep_second_present H st c e2 h1 h2, List.append_nil]
  · simp only [collision_handlers, collStep_both_missing H st c h1 h2]

/-- Witness for C6: in a state holding only `nmA`, resolving the pair
`(nmA, nmB)` reinserts `nmA` unmodified with no handler event. -/
theorem collision_pair_missing_witness :
    (lookupEnt stC6.entities nmA = some entC6 ∧ lookupEnt stC6.entities nmB = none) ∧
    (collision_handlers noHooks [(nmA, nmB)] stC6).map
      (fun r => (lookupEnt r.1.entities nmA, r.2)) = some (some entC6, []) := by
  obtain ⟨m2, heq, hlk⟩ :=
    (collision_pair_missing noHooks stC6 (nmA, nmB)).1 entC6 rfl rfl
  refine ⟨⟨rfl, rfl⟩, ?_⟩
  rw [heq]
  show some (lookupEnt m2 nmA, ([] : List Event)) = some (some entC6, [])
  rw [hlk nmA]
  rfl

/- ------------------------------------------------------------------ -/
/- C1: the collision index                                             -/
/- ------------------------------------------------------------------ -/

theorem collide_inner_nil (me : Entity) (cols : List (String × String)) :
    collide_inner me [] cols = cols := rfl

theorem collide_inner_cons (me o : Entity) (os : List Entity)
    (cols : List (String × String)) :
    collide_inner me (o :: os) cols = collide_inner me os (collide_one cols me o) := rfl

theorem fcOuter_nil (vals : List Entity) (cols : List (String × String)) :
    fcOuter vals [] cols = cols := rfl

theorem fcOuter_cons (vals : List Entity) (me : Entity) (l : List Entity)
    (cols : List (String × String)) :
    fcOuter vals (me :: l) cols =
      fcOuter vals l (if me.physical then collide_inner me vals cols else cols) := rfl

theorem already_there_iff (cols : List (String × String)) (a b : String) :
    already_there cols a b = true ↔
      ∃ q ∈ cols, (q.1 = a ∧ q.2 = b) ∨ (q.1 = b ∧ q.2 = a) := by
  simp [already_there, List.any_eq_true]

theorem already_there_append_left (l1 l2 : List (String × String)) (a b : String)
    (h : already_there l1 a b = true) : already_there (l1 ++ l2) a b = true := by
  unfold already_there at h ⊢
  rw [List.any_append, h, Bool.true_or]

theorem already_there_append_right (l1 l2 : List (String × String)) (a b : String)
    (h : already_there l2 a b = true) : already_there (l1 ++ l2) a b = true := by
  unfold already_there at h ⊢
  rw [List.any_append, h, Bool.or_true]

theorem mem_collide_one_of_mem (cols : List (String × String)) (me o : Entity)
    (p : String × String) (h : p ∈ cols) : p ∈ collide_one cols me o := by
  unfold collide_one
  split
  · exact h
  · split
    · split
      · exact h
      · exact List.mem_append_left _ h
    · exact h

theorem already_there_collide_one (cols : List (String × String)) (me o : Entity)
    (a b : String) (h : already_there cols a b = true) :
    already_there (collide_one cols me o) a b = true := by
  unfold collide_one
  split
  · exact h
  · split
    · split
      · exact h
      · exact already_there_append_left _ _ _ _ h
    · exact h

theorem already_there_collide_inner (me : Entity) (others : List Entity)
    (cols : List (String × String)) (a b : String)
    (h : already_there cols a b = true) :
    already_there (collide_inner me others cols) a b = true := by
  induction others generalizing cols with
  | nil => exact h
  | cons o os ih =>
    rw [collide_inner_cons]
    exact ih _ (already_there_collide_one cols me o a b h)

theorem already_there_fcOuter (vals l : List Entity) (cols : List (String × String))
    (a b : String) (h : already_there cols a b = true) :
    already_there (fcOuter vals l cols) a b = true := by
  induction l generalizing cols with
  | nil => exact h
  | cons me l ih =>
    rw [fcOuter_cons]
    refine ih _ ?_
    split
    · exact already_there_collide_inner me vals cols a b h
    · exact h

theorem collide_one_sound (vals cols : List _) (me o : Entity) (hme : me ∈ vals)
    (hph : me.physical = true) (ho : o ∈ vals)
    (hs : ∀ p ∈ cols, SoundPair vals p) :
    ∀ p ∈ collide_one cols me o, SoundPair vals p := by
  intro p hp
  unfold collide_one at hp
  by_cases h1 : o.name = me.name
  · rw [if_pos h1] at hp
    exact hs p hp
  · rw [if_neg h1] at hp
    by_cases h2 : me.intersects o = true
    · rw [if_pos h2] at hp
      by_cases h3 : already_there cols me.name o.name = true
      · rw [if_pos h3] at hp
        exact hs p hp
      · rw [if_neg h3] at hp
        rcases List.mem_append.mp hp with h4 | h4
        · exact hs p h4
        · rw [List.mem_singleton] at h4
          subst h4
          exact ⟨fun hh => h1 hh.symm, me, hme, o, ho, rfl, rfl, hph, h2⟩
    · rw [if_neg h2] at hp
      exact hs p hp

theorem collide_inner_sound (vals : List Entity) (me : Entity) (others : List Entity)
    (cols : List (String × String)) (hme : me ∈ vals) (hph : me.physical = true)
    (hothers : ∀ o ∈ others, o ∈ vals) (hs : ∀ p ∈ cols, SoundPair vals p) :
    ∀ p ∈ collide_inner me others cols, SoundPair vals p := by
  induction others generalizing cols with
  | nil => exact hs
  | cons o os ih =>
    intro p hp
    rw [collide_inner_cons] at hp
    refine ih _ (fun o' ho' => hothers o' (List.mem_cons_of_mem _ ho')) ?_ p hp
    exact collide_one_sound vals cols me o hme hph (hothers o (List.mem_cons_self _ _)) hs

theorem fcOuter_sound (vals l : List Entity) (cols : List (String × String))
    (hl : ∀ me ∈ l, me ∈ vals) (hs : ∀ p ∈ cols, SoundPair vals p) :
    ∀ p ∈ fcOuter vals l cols, SoundPair vals p := by
  induction l generalizing cols with
  | nil => exact hs
  | cons me l ih =>
    intro p hp
    rw [fcOuter_cons] at hp
    refine ih _ (fun me' hm' => hl me' (List.mem_cons_of_mem _ hm')) ?_ p hp
    by_cases hph : me.physical = true
    · rw [if_pos hph]
      exact collide_inner_sound vals me vals cols (hl me (List.mem_cons_self _ _)) hph
        (fun o ho => ho) hs
    · rw [if_neg hph]
      exact hs

theorem collide_one_pairwise (cols : List (String × String)) (me o : Entity)
    (hpw : cols.Pairwise UDiff) : (collide_one cols me o).Pairwise UDiff := by
  unfold collide_one
  split
  · exact hpw
  · split
    · by_cases h3 : already_there cols me.name o.name = true
      · rw [if_pos h3]
        exact hpw
      · rw [if_neg h3]
        rw [List.pairwise_append]
        refine ⟨hpw, List.pairwise_singleton _ _, ?_⟩
        intro p hp q hq
        rw [List.mem_singleton] at hq
        subst hq
        intro hcon
        rw [Bool.not_eq_true] at h3
        have h4 := (already_there_iff cols me.name o.name).not.mp (by rw [h3]; exact Bool.false_ne_true)
        refine h4 ⟨p, hp, ?_⟩
        rcases hcon with ⟨ha, hb⟩ | ⟨ha, hb⟩
        · exact Or.inl ⟨ha.symm, hb.symm⟩
        · exact Or.inr ⟨hb.symm, ha.symm⟩
    · exact hpw

theorem collide_inner_pairwise (me : Entity) (others : List Entity)
    (cols : List (String × String)) (hpw : cols.Pairwise UDiff) :
    (collide_inner me others cols).Pairwise UDiff := by
  induction others generalizing cols with
  | nil => exact hpw
  | cons o os ih =>
    rw [collide_inner_cons]
    exact ih _ (collide_one_pairwise cols me o hpw)

theorem fcOuter_pairwise (vals l : List Entity) (cols : List (String × String))
    (hpw : cols.Pairwise UDiff) : (fcOuter vals l cols).Pairwise UDiff := by
  induction l generalizing cols with
  | nil => exact hpw
  | cons me l ih =>
    rw [fcOuter_cons]
    refine ih _ ?_
    split
    · exact collide_inner_pairwise me vals cols hpw
    · exact hpw

theorem collide_inner_present (me : Entity) (others : List Entity)
    (cols : List (String × String)) (e2 : Entity) (h2 : e2 ∈ others)
    (hne : ¬ e2.name = me.name) (hint : me.intersects e2 = true) :
    already_there (collide_inner me others cols) me.name e2.name = true := by
  induction others generalizing cols with
  | nil => cases h2
  | cons o os ih =>
    rw [collide_inner_cons]
    rcases List.mem_cons.mp h2 with rfl | h2'
    · apply already_there_collide_inner
      unfold collide_one
      rw [if_neg hne, if_pos hint]
      by_cases h3 : already_there cols me.name e2.name = true
      · rw [if_pos h3]
        exact h3
      · rw [if_neg h3]
        refine already_there_append_right _ _ _ _ ?_
        simp [already_there]
    · exact ih _ h2'

theorem fcOuter_present (vals l : List Entity) (cols : List (String × String))
    (e1 e2 : Entity) (h1 : e1 ∈ l) (hph : e1.physical = true) (h2 : e2 ∈ vals)
    (hne : ¬ e2.name = e1.name) (hint : e1.intersects e2 = true) :
    already_there (fcOuter vals l cols) e1.name e2.name = true := by
  induction l generalizing cols with
  | nil => cases h1
  | cons me l ih =>
    rw [fcOuter_cons]
    rcases List.mem_cons.mp h1 with rfl | h1'
    · apply already_there_fcOuter
      rw [if_pos hph]
      exact collide_inner_present e1 vals cols e2 h2 hne hint
    · exact ih _ h1'

theorem countP_eq_one_of_pairwise {α : Type} (P : α → Bool) (l : List α)
    (hpw : l.Pairwise fun p q => ¬ (P p = true ∧ P q = true))
    (x : α) (hx : x ∈ l) (hPx : P x = true) : l.countP P = 1 := by
  induction l with
  | nil => cases hx
  | cons a t ih =>
    rw [List.pairwise_cons] at hpw
    by_cases hPa : P a = true
    · have ht : ∀ q ∈ t, ¬ P q = true := fun q hq hPq => hpw.1 q hq ⟨hPa, hPq⟩
      rw [List.countP_cons_of_pos _ _ hPa, List.countP_eq_zero.mpr ht]
    · have hx' : x ∈ t := by
        rcases List.mem_cons.mp hx with rfl | h
        · exact absurd hPx hPa
        · exact h
      rw [List.countP_cons_of_neg _ _ hPa]
      exact ih hpw.2 hx'

/-- Counterexample for C1: in `stC1` the physical entity `nmA` and the
NON-physical entity `nmB` overlap, and `find_collisions` returns the pair
`(nmA, nmB)`: a non-physical entity appears in a returned pair, because the
inner loop of the source never checks `other.physical`. -/
theorem find_collisions_nonphysical_cex :
    find_collisions stC1 = [(nmA, nmB)] ∧ (nmB, entC1B) ∈ stC1.entities ∧
    entC1B.name = nmB ∧ entC1B.physical = false := by
  refine ⟨by decide, by decide, rfl, rfl⟩

/-- C1 (amended): every pair returned by `find_collisions` consists of two
distinct entity names whose first member is a physical entity intersecting
the second (the second member may be non-physical), and each unordered pair
of distinct intersecting physical entities is recorded exactly once. -/
theorem find_collisions_amended (st : Animation) :
    (∀ p ∈ find_collisions st, SoundPair (st.entities.map Prod.snd) p) ∧
    (∀ e1 ∈ st.entities.map Prod.snd, ∀ e2 ∈ st.entities.map Prod.snd,
      e1.physical = true → e2.physical = true → e1.name ≠ e2.name →
      e1.intersects e2 = true →
      (find_collisions st).countP
        (fun q => decide (q = (e1.name, e2.name) ∨ q = (e2.name, e1.name))) = 1) := by
  constructor
  · exact fcOuter_sound _ _ [] (fun me hm => hm) (fun p hp => absurd hp (List.not_mem_nil p))
  · intro e1 h1 e2 h2 hp1 hp2 hne hint
    set P : (String × String) → Bool :=
      fun q => decide (q = (e1.name, e2.name) ∨ q = (e2.name, e1.name)) with hP
    have hpres : already_there (find_collisions st) e1.name e2.name = true :=
      fcOuter_present _ _ [] e1 e2 h1 hp1 h2 (fun hh => hne hh.symm) hint
    obtain ⟨q, hq, hq2⟩ := (already_there_iff _ _ _).mp hpres
    have hqP : P q = true := by
      rw [hP, decide_eq_true_eq]
      rcases hq2 with ⟨ha, hb⟩ | ⟨ha, hb⟩
      · exact Or.inl (Prod.ext ha hb)
      · exact Or.inr (Prod.ext ha hb)
    have hpw : (find_collisions st).Pairwise fun p q => ¬ (P p = true ∧ P q = true) := by
      refine (fcOuter_pairwise _ _ [] List.Pairwise.nil).imp ?_
      intro p q hud ⟨hPp, hPq⟩
      rw [hP, decide_eq_true_eq] at hPp hPq
      refine hud ?_
      rcases hPp with rfl | rfl <;> rcases hPq with h4 | h4 <;> rw [h4]
      · exact Or.inl ⟨rfl, rfl⟩
      · exact Or.inr ⟨rfl, rfl⟩
      · exact Or.inr ⟨rfl, rfl⟩
      · exact Or.inl ⟨rfl, rfl⟩
    exact countP_eq_one_of_pairwise P (find_collisions st) hpw q hq hqP

/-- Witness for the amended C1: two intersecting physical entities produce
exactly one recorded pair. -/
theorem find_collisions_amended_witness :
    (entC1WA ∈ stC1W.entities.map Prod.snd ∧ entC1WB ∈ stC1W.entities.map Prod.snd ∧
     entC1WA.physical = true ∧ entC1WB.physical = true ∧
     entC1WA.name ≠ entC1WB.name ∧ entC1WA.intersects entC1WB = true) ∧
    (find_collisions stC1W).countP
      (fun q => decide (q = (entC1WA.name, entC1WB.name) ∨
        q = (entC1WB.name, entC1WA.name))) = 1 := by
  refine ⟨⟨by decide, by decide, rfl, rfl, by decide, by decide⟩, ?_⟩
  exact (find_collisions_amended stC1W).2 entC1WA (by decide) entC1WB (by decide)
    rfl rfl (by decide) (by decide)

/- ------------------------------------------------------------------ -/
/- The hook-free do_callbacks pass                                     -/
/- ------------------------------------------------------------------ -/

theorem plainUpd_name (e : Entity) : (plainUpd e).name = e.name := by
  unfold plainUpd
  cases e.die_frame <;> rfl

theorem plainUpd_physical (e : Entity) : (plainUpd e).physical = e.physical := by
  unfold plainUpd
  cases e.die_frame <;> rfl

theorem plainUpd_callback (e : Entity) : (plainUpd e).has_callback = e.has_callback := by
  unfold plainUpd
  cases e.die_frame <;> rfl

theorem plainUpd_coll (e : Entity) : (plainUpd e).has_coll_handler = e.has_coll_handler := by
  unfold plainUpd
  cases e.die_frame <;> rfl

theorem plainUpd_death (e : Entity) :
    (plainUpd e).has_death_callback = e.has_death_callback := by
  unfold plainUpd
  cases e.die_frame <;> rfl

theorem plainUpd_follow (e : Entity) : (plainUpd e).follow_entity = e.follow_entity := by
  unfold plainUpd
  cases e.die_frame <;> rfl

theorem plainUpd_time (e : Entity) : (plainUpd e).die_time = e.die_time := by
  unfold plainUpd
  cases e.die_frame <;> rfl

theorem dcCallback_tame (H : Hooks) (d : List String) (st : Animation) (e : Entity)
    (ht : e.has_callback = false) :
    dcCallback H d st e = some (e, st, d, []) := by
  unfold dcCallback
  rw [if_neg (show ¬ e.has_callback = true by rw [ht]; exact Bool.false_ne_true)]

theorem dcOffscreen_tame (H : Hooks) (d : List String) (st : Animation) (e : Entity)
    (ht : e.has_callback = false) :
    dcOffscreen H d st e =
      some (e, st,
        if dies3 st.width st.height e = true then insName d e.name else d, []) := by
  unfold dcOffscreen dies3
  by_cases hc : e.die_offscreen = true ∧ (e.pos.x ≥ st.width ∨ e.pos.y ≥ st.height
      ∨ e.pos.x < -e.width ∨ e.pos.y < -e.height)
  · rw [if_pos hc, if_pos (by rw [if_pos hc])]
  · rw [if_neg hc, if_neg (by rw [if_neg hc]; exact Bool.false_ne_true)]
    exact dcCallback_tame H d st e ht

theorem dcDieEntity_tame (H : Hooks) (all d : List String) (st : Animation) (e : Entity)
    (ht : e.has_callback = false) :
    dcDieEntity H all d st e =
      some (e, st,
        if dies2 all d st.width st.height e = true then insName d e.name else d, []) := by
  unfold dcDieEntity dies2
  cases hde : e.die_entity with
  | some den =>
    dsimp only
    by_cases hc : den ∉ all ∨ den ∈ d
    · rw [if_pos hc, if_pos (by rw [if_pos hc])]
    · rw [if_neg hc, if_neg hc]
      exact dcOffscreen_tame H d st e ht
  | none =>
    dsimp only
    exact dcOffscreen_tame H d st e ht

theorem dcStep_tame (H : Hooks) (all d : List String) (st : Animation) (e : Entity)
    (ht : tame e) :
    dcStep H all d st e =
      some (plainUpd e, st,
        if dies1 all d st.width st.height e = true then insName d e.name else d, []) := by
  obtain ⟨ht1, ht2⟩ := ht
  unfold dcStep plainUpd dies1
  rw [if_neg (show ¬ e.die_time = true by rw [ht1]; exact Bool.false_ne_true)]
  cases hdf : e.die_frame with
  | some n =>
    dsimp only
    by_cases hn : n - 1 ≤ 0
    · rw [if_pos hn, if_pos (by rw [if_pos hn])]
    · rw [if_neg hn]
      rw [dcDieEntity_tame H all d st { e with die_frame := some (n - 1) } ht2]
      rw [show (if n - 1 ≤ 0 then true else dies2 all d st.width st.height e) =
          dies2 all d st.width st.height e from if_neg hn]
      rfl
  | none =>
    dsimp only
    exact dcDieEntity_tame H all d st e ht2

theorem delFold_cons (all : List String) (w h : Int) (p : String × Entity)
    (rest : List (String × Entity)) (d : List String) :
    delFold all w h (p :: rest) d =
      delFold all w h rest
        (if dies1 all d w h p.2 = true then insName d p.2.name else d) := rfl

theorem dcGo_tame (H : Hooks) (all : List String) (l : List (String × Entity))
    (st : Animation) (d : List String) (ht : ∀ p ∈ l, tame p.2) :
    dcGo H all l st d =
      some (l.map (fun p => (p.1, plainUpd p.2)), st,
        delFold all st.width st.height l d, []) := by
  induction l generalizing d with
  | nil => rfl
  | cons p rest ih =>
    obtain ⟨k, e⟩ := p
    have ih2 : ∀ d2, dcGo H all rest st d2 =
        some (rest.map (fun p => (p.1, plainUpd p.2)), st,
          delFold all st.width st.height rest d2, []) :=
      fun d2 => ih d2 (fun q hq => ht q (List.mem_cons_of_mem _ hq))
    rw [show dcGo H all ((k, e) :: rest) st d =
        (match dcStep H all d st e with
         | none => none
         | some (e2, st2, deleted2, evs) =>
           match dcGo H all rest st2 deleted2 with
           | none => none
           | some (pr, st3, deleted3, evs2) =>
             some ((k, e2) :: pr, st3, deleted3, evs ++ evs2)) from rfl]
    rw [dcStep_tame H all d st e (ht (k, e) (List.mem_cons_self _ _))]
    dsimp only
    rw [ih2 (if dies1 all d st.width st.height e = true then insName d e.name else d)]
    rw [delFold_cons]
    rfl

theorem do_callbacks_tame (H : Hooks) (st : Animation)
    (ht : ∀ p ∈ st.entities, tame p.2) :
    do_callbacks H st =
      some ({ st with entities := st.entities.map (fun p => (p.1, plainUpd p.2)) },
        delFold (st.entities.map Prod.fst) st.width st.height st.entities [], []) := by
  unfold do_callbacks
  dsimp only
  rw [dcGo_tame H (st.entities.map Prod.fst) st.entities { st with entities := [] } [] ht]

/- ------------------------------------------------------------------ -/
/- The deleted set of a tame pass                                      -/
/- ------------------------------------------------------------------ -/

theorem mem_insName_self (d : List String) (n : String) : n ∈ insName d n := by
  unfold insName
  by_cases h : n ∈ d
  · rw [if_pos h]
    exact h
  · rw [if_neg h]
    exact List.mem_append_right _ (List.mem_singleton_self n)

theorem mem_insName_of_mem (d : List String) (n x : String) (h : x ∈ d) :
    x ∈ insName d n := by
  unfold insName
  split
  · exact h
  · exact List.mem_append_left _ h

theorem insName_nodup (d : List String) (n : String) (h : d.Nodup) :
    (insName d n).Nodup := by
  unfold insName
  by_cases hn : n ∈ d
  · rw [if_pos hn]
    exact h
  · rw [if_neg hn]
    refine List.Nodup.append h (List.nodup_singleton n) ?_
    intro x hx hxn
    rw [List.mem_singleton] at hxn
    exact hn (hxn ▸ hx)

theorem delFold_mono (all : List String) (w h : Int) (l : List (String × Entity))
    (d : List String) (x : String) (hx : x ∈ d) : x ∈ delFold all w h l d := by
  induction l generalizing d with
  | nil => exact hx
  | cons p rest ih =>
    rw [delFold_cons]
    refine ih _ ?_
    split
    · exact mem_insName_of_mem _ _ _ hx
    · exact hx

theorem delFold_append (all : List String) (w h : Int)
    (l1 l2 : List (String × Entity)) (d : List String) :
    delFold all w h (l1 ++ l2) d = delFold all w h l2 (delFold all w h l1 d) := by
  induction l1 generalizing d with
  | nil => rfl
  | cons p rest ih =>
    rw [List.cons_append, delFold_cons, delFold_cons]
    exact ih _

theorem delFold_nodup (all : List String) (w h : Int) (l : List (String × Entity))
    (d : List String) (hd : d.Nodup) : (delFold all w h l d).Nodup := by
  induction l generalizing d with
  | nil => exact hd
  | cons p rest ih =>
    rw [delFold_cons]
    refine ih _ ?_
    split
    · exact insName_nodup _ _ hd
    · exact hd

theorem dies1_frame_one (all d : List String) (w h : Int) (e : Entity)
    (hf : e.die_frame = some 1) : dies1 all d w h e = true := by
  unfold dies1
  rw [hf]
  dsimp only
  rw [if_pos (by omega : (1 : Int) - 1 ≤ 0)]

theorem dies1_entity_mem (all d : List String) (w h : Int) (e : Entity) (den : String)
    (hde : e.die_entity = some den) (hmem : den ∈ d) : dies1 all d w h e = true := by
  have h2 : dies2 all d w h e = true := by
    unfold dies2
    rw [hde]
    dsimp only
    rw [if_pos (Or.inr hmem)]
  unfold dies1
  cases hdf : e.die_frame with
  | some n =>
    dsimp only
    by_cases hn : n - 1 ≤ 0
    · rw [if_pos hn]
    · rw [if_neg hn]
      exact h2
  | none =>
    dsimp only
    exact h2

theorem delFold_mem_frame (all : List String) (w h : Int)
    (l1 l2 : List (String × Entity)) (k : String) (e : Entity) (d : List String)
    (hf : e.die_frame = some 1) :
    e.name ∈ delFold all w h (l1 ++ (k, e) :: l2) d := by
  rw [delFold_append, delFold_cons]
  rw [show dies1 all (delFold all w h l1 d) w h (k, e).2 = true from
    dies1_frame_one _ _ _ _ _ hf]
  rw [if_pos rfl]
  exact delFold_mono _ _ _ _ _ _ (mem_insName_self _ _)

theorem delFold_mem_entity (all : List String) (w h : Int)
    (l1 l2 : List (String × Entity)) (k : String) (e : Entity) (d : List String)
    (den : String) (hde : e.die_entity = some den)
    (hmem : den ∈ delFold all w h l1 d) :
    e.name ∈ delFold all w h (l1 ++ (k, e) :: l2) d := by
  rw [delFold_append, delFold_cons]
  rw [show dies1 all (delFold all w h l1 d) w h (k, e).2 = true from
    dies1_entity_mem _ _ _ _ _ _ hde hmem]
  rw [if_pos rfl]
  exact delFold_mono _ _ _ _ _ _ (mem_insName_self _ _)

/- ------------------------------------------------------------------ -/
/- Death cleanup on hook-free maps                                     -/
/- ------------------------------------------------------------------ -/

theorem mem_removeAllEnt_subset (del : List String) (m : List (String × Entity))
    (p : String × Entity) (h : p ∈ removeAllEnt del m) : p ∈ m := by
  induction del generalizing m with
  | nil => exact h
  | cons n rest ih =>
    unfold removeAllEnt at h
    exact mem_removeEnt_subset _ _ _ (ih _ h)

theorem NodupKeys_removeAllEnt (del : List String) (m : List (String × Entity))
    (h : NodupKeys m) : NodupKeys (removeAllEnt del m) := by
  induction del generalizing m with
  | nil => exact h
  | cons n rest ih =>
    unfold removeAllEnt
    exact ih _ (NodupKeys_removeEnt _ _ h)

theorem lookupEnt_removeAllEnt_none (del : List String) (m : List (String × Entity))
    (n : String) (hn : NodupKeys m) (h : n ∈ del) :
    lookupEnt (removeAllEnt del m) n = none := by
  induction del generalizing m with
  | nil => cases h
  | cons d rest ih =>
    unfold removeAllEnt
    rcases List.mem_cons.mp h with rfl | h2
    · have h0 : lookupEnt (removeEnt m n).2 n = none := lookupEnt_removeEnt_self m n hn
      rw [lookupEnt_eq_none_iff]
      intro p hp
      exact (lookupEnt_eq_none_iff _ _).mp h0 p (mem_removeAllEnt_subset rest _ p hp)
    · exact ih _ (NodupKeys_removeEnt _ _ hn) h2

theorem remove_deleted_no_death (H : Hooks) (del : List String) (st : Animation)
    (hnd : ∀ p ∈ st.entities, p.2.has_death_callback = false) :
    remove_deleted_entries H del st =
      ({ st with entities := removeAllEnt del st.entities }, []) := by
  induction del generalizing st with
  | nil => rfl
  | cons n rest ih =>
    unfold remove_deleted_entries removeAllEnt
    dsimp only
    cases hr : (removeEnt st.entities n).1 with
    | some e =>
      dsimp only
      have hmem : (n, e) ∈ st.entities :=
        lookupEnt_some_mem _ _ _ (by rw [← removeEnt_fst]; exact hr)
      have hf : ¬ e.has_death_callback = true := by
        rw [hnd _ hmem]
        exact Bool.false_ne_true
      rw [if_neg hf]
      rw [ih { st with entities := (removeEnt st.entities n).2 }
        (fun p hp => hnd p (mem_removeEnt_subset _ _ _ hp))]
    | none =>
      dsimp only
      have hl : lookupEnt st.entities n = none := by rw [← removeEnt_fst]; exact hr
      rw [removeEnt_snd_none _ _ hl]
      exact ih st hnd

/- ------------------------------------------------------------------ -/
/- Follower propagation with no followers                              -/
/- ------------------------------------------------------------------ -/

theorem move_followers_id (st : Animation)
    (hf : ∀ p ∈ st.entities, p.2.follow_entity = none) :
    move_followers st = some st := by
  unfold move_followers
  rw [show st.entities.filterMap mfCollect = [] from ?_]
  · rfl
  · rw [List.filterMap_eq_nil_iff]
    intro p hp
    unfold mfCollect
    rw [hf p hp]

/- ------------------------------------------------------------------ -/
/- The collision stage on handler-free maps                            -/
/- ------------------------------------------------------------------ -/

theorem not_mem_keys_removeEnt (m : List (String × Entity)) (k : String)
    (hn : NodupKeys m) : k ∉ ((removeEnt m k).2).map Prod.fst := by
  intro hc
  obtain ⟨p, hp, hpk⟩ := List.mem_map.mp hc
  exact (lookupEnt_eq_none_iff _ _).mp (lookupEnt_removeEnt_self m k hn) p hp hpk

theorem keys_mem_of_lookup (m : List (String × Entity)) (k : String) (e : Entity)
    (h : lookupEnt m k = some e) : k ∈ m.map Prod.fst :=
  List.mem_map.mpr ⟨(k, e), lookupEnt_some_mem _ _ _ h, rfl⟩

theorem lookupEnt_of_mem_nodup (m : List (String × Entity)) (k : String) (v : Entity)
    (hmem : (k, v) ∈ m) (hn : NodupKeys m) : lookupEnt m k = some v := by
  induction m with
  | nil => cases hmem
  | cons q rest ih =>
    obtain ⟨k1, e⟩ := q
    unfold NodupKeys at hn
    simp only [List.map_cons, List.nodup_cons] at hn
    rcases List.mem_cons.mp hmem with heq | hmem2
    · cases heq
      simp [lookupEnt]
    · by_cases hk : k1 = k
      · exfalso
        subst hk
        exact hn.1 (List.mem_map.mpr ⟨(k1, v), hmem2, rfl⟩)
      · rw [show lookupEnt ((k1, e) :: rest) k = lookupEnt rest k by
          simp [lookupEnt, hk]]
        exact ih hmem2 hn.2

theorem NodupKeys_perm (m1 m2 : List (String × Entity)) (h : m1.Perm m2)
    (hn : NodupKeys m1) : NodupKeys m2 := by
  unfold NodupKeys at hn ⊢
  exact ((h.map Prod.fst).nodup_iff).mp hn

theorem lookupEnt_eq_of_perm (m1 m2 : List (String × Entity)) (h : m1.Perm m2)
    (hn : NodupKeys m1) (k : String) : lookupEnt m1 k = lookupEnt m2 k := by
  cases h1 : lookupEnt m1 k with
  | none =>
    symm
    rw [lookupEnt_eq_none_iff] at h1 ⊢
    intro p hp
    exact h1 p (h.mem_iff.mpr hp)
  | some v =>
    symm
    exact lookupEnt_of_mem_nodup _ _ _ (h.mem_iff.mp (lookupEnt_some_mem _ _ _ h1))
      (NodupKeys_perm _ _ h hn)

theorem collBoth_clean (H : Hooks) (st : Animation) (c : String × String)
    (e1 e2 : Entity) (m2 : List (String × Entity))
    (h1 : e1.has_coll_handler = false) (h2 : e2.has_coll_handler = false) :
    collBoth H st c e1 e2 m2 =
      ({ st with entities := insertEnt (insertEnt m2 c.1 e1) c.2 e2 }, []) := by
  unfold collBoth
  dsimp only
  rw [if_neg (show ¬ e1.has_coll_handler = true by rw [h1]; exact Bool.false_ne_true)]
  rw [if_neg (show ¬ e2.has_coll_handler = true by rw [h2]; exact Bool.false_ne_true)]
  rfl

theorem collStep_clean (H : Hooks) (st : Animation) (c : String × String)
    (hn : NodupKeys st.entities)
    (hc : ∀ p ∈ st.entities, p.2.has_coll_handler = false)
    (hor : lookupEnt st.entities c.1 ≠ none ∨ lookupEnt st.entities c.2 ≠ none) :
    ∃ m2, collStep H st c = some ({ st with entities := m2 }, []) ∧
      m2.Perm st.entities := by
  cases h1 : lookupEnt st.entities c.1 with
  | some e1 =>
    rcases hM : removeEnt st.entities c.1 with ⟨o1, M1⟩
    have ho1 : o1 = some e1 := by
      have hf := removeEnt_fst st.entities c.1
      rw [hM, h1] at hf
      exact hf
    subst ho1
    have hM2 : (removeEnt st.entities c.1).2 = M1 := by rw [hM]
    have hperm1 : st.entities.Perm ((c.1, e1) :: M1) := by
      have hp := removeEnt_perm st.entities c.1 e1 (by rw [removeEnt_fst]; exact h1)
      rwa [hM2] at hp
    have hn1 : NodupKeys M1 := by
      have hp := NodupKeys_removeEnt st.entities c.1 hn
      rwa [hM2] at hp
    have hkey1 : c.1 ∉ M1.map Prod.fst := by
      have hp := not_mem_keys_removeEnt st.entities c.1 hn
      rwa [hM2] at hp
    cases h2 : lookupEnt M1 c.2 with
    | none =>
      refine ⟨insertEnt M1 c.1 e1, ?_, ?_⟩
      · unfold collStep
        rw [hM]
        dsimp only
        rw [removeEnt_eq_none M1 c.2 h2]
      · rw [insertEnt_of_not_mem _ _ _ hkey1]
        exact (List.perm_append_singleton _ _).trans hperm1.symm
    | some e2 =>
      rcases hN : removeEnt M1 c.2 with ⟨o2, M2⟩
      have ho2 : o2 = some e2 := by
        have hf := removeEnt_fst M1 c.2
        rw [hN, h2] at hf
        exact hf
      subst ho2
      have hN2 : (removeEnt M1 c.2).2 = M2 := by rw [hN]
      have hperm2 : M1.Perm ((c.2, e2) :: M2) := by
        have hp := removeEnt_perm M1 c.2 e2 (by rw [removeEnt_fst]; exact h2)
        rwa [hN2] at hp
      have hkey2 : c.2 ∉ M2.map Prod.fst := by
        have hp := not_mem_keys_removeEnt M1 c.2 hn1
        rwa [hN2] at hp
      have hkey12 : ¬ c.1 = c.2 := by
        intro hcc
        rw [hcc] at hkey1
        exact hkey1 (keys_mem_of_lookup M1 c.2 e2 h2)
      have hkey1' : c.1 ∉ M2.map Prod.fst := by
        intro hcm
        obtain ⟨p, hp, hpk⟩ := List.mem_map.mp hcm
        refine hkey1 (List.mem_map.mpr ⟨p, ?_, hpk⟩)
        exact mem_removeEnt_subset M1 c.2 p (by rw [hN2]; exact hp)
      have hf1 : e1.has_coll_handler = false := hc _ (lookupEnt_some_mem _ _ _ h1)
      have hf2 : e2.has_coll_handler = false := by
        refine hc (c.2, e2) ?_
        exact hperm1.mem_iff.mpr (List.mem_cons_of_mem _ (lookupEnt_some_mem _ _ _ h2))
      refine ⟨insertEnt (insertEnt M2 c.1 e1) c.2 e2, ?_, ?_⟩
      · unfold collStep
        rw [hM]
        dsimp only
        rw [hN]
        dsimp only
        rw [collBoth_clean H st c e1 e2 M2 hf1 hf2]
      · rw [insertEnt_of_not_mem _ _ _ hkey1']
        have hkey2' : c.2 ∉ (M2 ++ [(c.1, e1)]).map Prod.fst := by
          rw [List.map_append]
          intro hmm
          rcases List.mem_append.mp hmm with hA | hB
          · exact hkey2 hA
          · rw [show [(c.1, e1)].map Prod.fst = [c.1] from rfl, List.mem_singleton] at hB
            exact hkey12 hB.symm
        rw [insertEnt_of_not_mem _ _ _ hkey2']
        refine List.Perm.trans (List.perm_append_singleton _ _) ?_
        refine List.Perm.trans (List.Perm.cons _ (List.perm_append_singleton _ _)) ?_
        refine List.Perm.trans (List.Perm.swap _ _ _) ?_
        refine List.Perm.trans (List.Perm.cons _ hperm2.symm) ?_
        exact hperm1.symm
  | none =>
    cases h2 : lookupEnt st.entities c.2 with
    | none =>
      exfalso
      rcases hor with hA | hA
      · exact hA h1
      · exact hA h2
    | some e2 =>
      refine ⟨insertEnt (removeEnt st.entities c.2).2 c.2 e2, ?_, ?_⟩
      · exact collStep_second_present H st c e2 h1 h2
      · rw [insertEnt_of_not_mem _ _ _ (not_mem_keys_removeEnt st.entities c.2 hn)]
        refine (List.perm_append_singleton _ _).trans ?_
        exact (removeEnt_perm st.entities c.2 e2 (by rw [removeEnt_fst]; exact h2)).symm

theorem collision_handlers_clean (H : Hooks) (cols : List (String × String))
    (st : Animation) (hn : NodupKeys st.entities)
    (hc : ∀ p ∈ st.entities, p.2.has_coll_handler = false)
    (hor : ∀ c ∈ cols, lookupEnt st.entities c.1 ≠ none ∨ lookupEnt st.entities c.2 ≠ none) :
    ∃ m2, collision_handlers H cols st = some ({ st with entities := m2 }, []) ∧
      m2.Perm st.entities := by
  induction cols generalizing st with
  | nil => exact ⟨st.entities, rfl, List.Perm.refl _⟩
  | cons c rest ih =>
    obtain ⟨m2, hstep, hperm⟩ :=
      collStep_clean H st c hn hc (hor c (List.mem_cons_self _ _))
    have hn2 : NodupKeys m2 := NodupKeys_perm st.entities m2 hperm.symm hn
    have hc2 : ∀ p ∈ m2, p.2.has_coll_handler = false :=
      fun p hp => hc p (hperm.mem_iff.mp hp)
    have hor2 : ∀ c2 ∈ rest,
        lookupEnt m2 c2.1 ≠ none ∨ lookupEnt m2 c2.2 ≠ none := by
      intro c2 hc2m
      have hl1 := lookupEnt_eq_of_perm m2 st.entities hperm hn2 c2.1
      have hl2 := lookupEnt_eq_of_perm m2 st.entities hperm hn2 c2.2
      rcases hor c2 (List.mem_cons_of_mem _ hc2m) with hA | hA
      · exact Or.inl (by rw [hl1]; exact hA)
      · exact Or.inr (by rw [hl2]; exact hA)
    obtain ⟨m3, hrest, hperm3⟩ := ih { st with entities := m2 } hn2 hc2 hor2
    refine ⟨m3, ?_, hperm3.trans hperm⟩
    unfold collision_handlers
    rw [hstep]
    dsimp only
    rw [hrest]
    rfl

/- ------------------------------------------------------------------ -/
/- Counting physical entities                                          -/
/- ------------------------------------------------------------------ -/

theorem countPhysical_perm (m1 m2 : List (String × Entity)) (h : m1.Perm m2) :
    countPhysical m1 = countPhysical m2 := h.countP_eq _

theorem countPhysical_mapUpd (m : List (String × Entity)) :
    countPhysical (m.map fun p => (p.1, plainUpd p.2)) = countPhysical m := by
  induction m with
  | nil => rfl
  | cons p rest ih =>
    simp only [countPhysical, List.map_cons, List.countP_cons] at ih ⊢
    rw [ih, plainUpd_physical]

theorem countPhysical_removeEnt_le (m : List (String × Entity)) (k : String) :
    countPhysical (removeEnt m k).2 ≤ countPhysical m := by
  induction m with
  | nil => exact Nat.le_refl _
  | cons q rest ih =>
    obtain ⟨k1, e⟩ := q
    by_cases h1 : k1 = k
    · rw [show (removeEnt ((k1, e) :: rest) k).2 = rest by simp [removeEnt, h1]]
      simp only [countPhysical, List.countP_cons]
      exact Nat.le_add_right _ _
    · rw [show (removeEnt ((k1, e) :: rest) k).2 = (k1, e) :: (removeEnt rest k).2 by
        simp [removeEnt, h1]]
      simp only [countPhysical, List.countP_cons] at ih ⊢
      exact Nat.add_le_add_right ih _

theorem countPhysical_removeAll_le (del : List String) (m : List (String × Entity)) :
    countPhysical (removeAllEnt del m) ≤ countPhysical m := by
  induction del generalizing m with
  | nil => exact Nat.le_refl _
  | cons n rest ih =>
    unfold removeAllEnt
    exact Nat.le_trans (ih _) (countPhysical_removeEnt_le m n)

theorem keys_mapUpd (m : List (String × Entity)) :
    (m.map fun p => (p.1, plainUpd p.2)).map Prod.fst = m.map Prod.fst := by
  induction m with
  | nil => rfl
  | cons p rest ih => simp only [List.map_cons, ih]

theorem lookup_name_ne_none (m : List (String × Entity)) (e : Entity)
    (hok : ∀ p ∈ m, p.1 = p.2.name) (he : e ∈ m.map Prod.snd) :
    lookupEnt m e.name ≠ none := by
  obtain ⟨q, hq, hqe⟩ := List.mem_map.mp he
  intro hnone
  exact (lookupEnt_eq_none_iff _ _).mp hnone q hq (by rw [hok q hq, hqe])

theorem countPhysical_insertEnt_le (m : List (String × Entity)) (k : String)
    (v : Entity) :
    countPhysical (insertEnt m k v) ≤
      countPhysical m + (if v.physical = true then 1 else 0) := by
  induction m with
  | nil =>
    simp [insertEnt, countPhysical, List.countP_cons]
  | cons q rest ih =>
    obtain ⟨k1, e⟩ := q
    by_cases h1 : k1 = k
    · rw [show insertEnt ((k1, e) :: rest) k v = (k1, v) :: rest by simp [insertEnt, h1]]
      simp only [countPhysical, List.countP_cons]
      have hle : countPhysical rest ≤ countPhysical rest + (if e.physical = true then 1 else 0) :=
        Nat.le_add_right _ _
      simp only [countPhysical] at hle
      omega
    · rw [show insertEnt ((k1, e) :: rest) k v = (k1, e) :: insertEnt rest k v by
        simp [insertEnt, h1]]
      simp only [countPhysical, List.countP_cons] at ih ⊢
      omega

/- ------------------------------------------------------------------ -/
/- A hook-free frame                                                   -/
/- ------------------------------------------------------------------ -/

theorem animate_plain (H : Hooks) (st : Animation) (hn : NodupKeys st.entities)
    (hok : ∀ p ∈ st.entities, p.1 = p.2.name)
    (hp : ∀ p ∈ st.entities, plainEnt p.2) :
    ∃ st2, animate H st = some (st2, []) ∧ NodupKeys st2.entities ∧
      (∀ p ∈ st2.entities, p.1 = p.2.name) ∧ (∀ p ∈ st2.entities, plainEnt p.2) ∧
      countPhysical st2.entities ≤ countPhysical st.entities ∧
      st2.physical_count = st.physical_count ∧
      st2.width = st.width ∧ st2.height = st.height := by
  have htame : ∀ p ∈ st.entities, tame p.2 := fun p hp2 => ⟨(hp p hp2).1, (hp p hp2).2.1⟩
  have hdo := do_callbacks_tame H st htame
  have hmok : ∀ p ∈ st.entities.map (fun p => (p.1, plainUpd p.2)), p.1 = p.2.name := by
    intro p hp2
    obtain ⟨q, hq, hqe⟩ := List.mem_map.mp hp2
    rw [← hqe]
    dsimp only
    rw [plainUpd_name]
    exact hok q hq
  have hmplain : ∀ p ∈ st.entities.map (fun p => (p.1, plainUpd p.2)), plainEnt p.2 := by
    intro p hp2
    obtain ⟨q, hq, hqe⟩ := List.mem_map.mp hp2
    obtain ⟨a1, a2, a3, a4, a5⟩ := hp q hq
    rw [← hqe]
    refine ⟨?_, ?_, ?_, ?_, ?_⟩
    · dsimp only
      rw [plainUpd_time]
      exact a1
    · dsimp only
      rw [plainUpd_callback]
      exact a2
    · dsimp only
      rw [plainUpd_coll]
      exact a3
    · dsimp only
      rw [plainUpd_death]
      exact a4
    · dsimp only
      rw [plainUpd_follow]
      exact a5
  have hmn : NodupKeys (st.entities.map (fun p => (p.1, plainUpd p.2))) := by
    unfold NodupKeys
    rw [keys_mapUpd]
    exact hn
  obtain ⟨m2, hst2eq, hperm2⟩ : ∃ m2,
      (if ({ st with entities := st.entities.map (fun p => (p.1, plainUpd p.2)) } : Animation).physical_count > 0
       then collision_handlers H
              (find_collisions { st with entities := st.entities.map (fun p => (p.1, plainUpd p.2)) })
              { st with entities := st.entities.map (fun p => (p.1, plainUpd p.2)) }
       else some (({ st with entities := st.entities.map (fun p => (p.1, plainUpd p.2)) } : Animation), [])) =
        some ({ st with entities := m2 }, []) ∧
      m2.Perm (st.entities.map (fun p => (p.1, plainUpd p.2))) := by
    by_cases hpc : ({ st with entities := st.entities.map (fun p => (p.1, plainUpd p.2)) } : Animation).physical_count > 0
    · rw [if_pos hpc]
      have hpair : ∀ c ∈ find_collisions
          { st with entities := st.entities.map (fun p => (p.1, plainUpd p.2)) },
          lookupEnt (st.entities.map (fun p => (p.1, plainUpd p.2))) c.1 ≠ none ∨
          lookupEnt (st.entities.map (fun p => (p.1, plainUpd p.2))) c.2 ≠ none := by
        intro c hcmem
        rw [show ∀ s2 : Animation, find_collisions s2 =
            fcOuter (s2.entities.map Prod.snd) (s2.entities.map Prod.snd) [] from
          fun s2 => rfl] at hcmem
        dsimp only at hcmem
        have hsp := fcOuter_sound
          ((st.entities.map (fun p => (p.1, plainUpd p.2))).map Prod.snd)
          ((st.entities.map (fun p => (p.1, plainUpd p.2))).map Prod.snd) []
          (fun me hm => hm) (fun p hp2 => absurd hp2 (List.not_mem_nil p)) c hcmem
        obtain ⟨hne, e1, he1, e2, he2, hname1, hname2, hph, hint⟩ := hsp
        left
        rw [← hname1]
        exact lookup_name_ne_none _ e1 hmok he1
      exact collision_handlers_clean H _ _ hmn
        (fun p hp2 => (hmplain p hp2).2.2.1) hpair
    · rw [if_neg hpc]
      exact ⟨st.entities.map (fun p => (p.1, plainUpd p.2)), rfl, List.Perm.refl _⟩
  have hn2 : NodupKeys m2 := NodupKeys_perm _ m2 hperm2.symm hmn
  have hok2 : ∀ p ∈ m2, p.1 = p.2.name := fun p hp2 => hmok p (hperm2.mem_iff.mp hp2)
  have hplain2 : ∀ p ∈ m2, plainEnt p.2 := fun p hp2 => hmplain p (hperm2.mem_iff.mp hp2)
  have hrd := remove_deleted_no_death H
    (delFold (st.entities.map Prod.fst) st.width st.height st.entities [])
    { st with entities := m2 }
    (fun p hp2 => by
      have := (hplain2 p hp2).2.2.2.1
      exact this)
  have hsub3 : ∀ p ∈ removeAllEnt
      (delFold (st.entities.map Prod.fst) st.width st.height st.entities []) m2, p ∈ m2 :=
    fun p hp2 => mem_removeAllEnt_subset _ _ p hp2
  have hfol : ∀ p ∈ removeAllEnt
      (delFold (st.entities.map Prod.fst) st.width st.height st.entities []) m2,
      p.2.follow_entity = none :=
    fun p hp2 => (hplain2 p (hsub3 p hp2)).2.2.2.2
  refine ⟨{ st with entities := removeAllEnt (delFold (st.entities.map Prod.fst) st.width st.height st.entities []) m2 }, ?_, ?_, ?_, ?_, ?_, rfl, rfl, rfl⟩
  · unfold animate
    rw [hdo]
    dsimp only
    rw [hst2eq]
    dsimp only
    rw [hrd]
    dsimp only
    rw [move_followers_id _ hfol]
    rfl
  · exact NodupKeys_removeAllEnt _ _ hn2
  · exact fun p hp2 => hok2 p (hsub3 p hp2)
  · exact fun p hp2 => hplain2 p (hsub3 p hp2)
  · refine Nat.le_trans (countPhysical_removeAll_le _ _) ?_
    rw [countPhysical_perm m2 _ hperm2, countPhysical_mapUpd]

theorem mapUpd_plain (m : List (String × Entity)) (hp : ∀ p ∈ m, plainEnt p.2) :
    ∀ p ∈ m.map (fun p => (p.1, plainUpd p.2)), plainEnt p.2 := by
  intro p hp2
  obtain ⟨q, hq, hqe⟩ := List.mem_map.mp hp2
  obtain ⟨a1, a2, a3, a4, a5⟩ := hp q hq
  rw [← hqe]
  refine ⟨?_, ?_, ?_, ?_, ?_⟩
  · dsimp only
    rw [plainUpd_time]
    exact a1
  · dsimp only
    rw [plainUpd_callback]
    exact a2
  · dsimp only
    rw [plainUpd_coll]
    exact a3
  · dsimp only
    rw [plainUpd_death]
    exact a4
  · dsimp only
    rw [plainUpd_follow]
    exact a5

/-- Exact shape of a hook-free frame when the `physical_count` cache is
zero (so the collision stage is skipped): decrement countdowns, then
remove the names collected by the death checks. -/
theorem animate_plain_skipcoll (H : Hooks) (st : Animation)
    (_hn : NodupKeys st.entities) (hp : ∀ p ∈ st.entities, plainEnt p.2)
    (hpc : st.physical_count = 0) :
    animate H st =
      some ({ st with entities := removeAllEnt (delFold (st.entities.map Prod.fst) st.width st.height st.entities []) (st.entities.map (fun p => (p.1, plainUpd p.2))) }, []) := by
  have htame : ∀ p ∈ st.entities, tame p.2 := fun p hp2 => ⟨(hp p hp2).1, (hp p hp2).2.1⟩
  have hdo := do_callbacks_tame H st htame
  have hmplain := mapUpd_plain st.entities hp
  have hrd := remove_deleted_no_death H
    (delFold (st.entities.map Prod.fst) st.width st.height st.entities [])
    { st with entities := st.entities.map (fun p => (p.1, plainUpd p.2)) }
    (fun p hp2 => (hmplain p hp2).2.2.2.1)
  have hfol : ∀ p ∈ removeAllEnt
      (delFold (st.entities.map Prod.fst) st.width st.height st.entities [])
      (st.entities.map (fun p => (p.1, plainUpd p.2))),
      p.2.follow_entity = none :=
    fun p hp2 => (hmplain p (mem_removeAllEnt_subset _ _ p hp2)).2.2.2.2
  unfold animate
  rw [hdo]
  dsimp only
  rw [if_neg (by simp [hpc])]
  dsimp only
  rw [hrd]
  dsimp only
  rw [move_followers_id _ hfol]
  rfl

/- ------------------------------------------------------------------ -/
/- C5: the physical_count cache                                        -/
/- ------------------------------------------------------------------ -/

/-- Counterexample for C5: after adding one plain physical entity with
`die_after_n_frames = 1` and running one frame, the entity map holds no
physical entity but `physical_count` is still 1: the cache is never
decremented on removal. -/
theorem physical_count_cex :
    (animate noHooks stC5).map
      (fun r => (r.1.physical_count, countPhysical r.1.entities)) = some (1, 0) := by
  decide

theorem runOps_plain_inv (H : Hooks) (ops : List Op) (st : Animation)
    (hadd : ∀ e ∈ opEnts ops, plainEnt e)
    (hn : NodupKeys st.entities) (hok : ∀ p ∈ st.entities, p.1 = p.2.name)
    (hp : ∀ p ∈ st.entities, plainEnt p.2)
    (hcnt : countPhysical st.entities ≤ st.physical_count) :
    ∀ st3, runOps H ops st = some st3 →
      st3.physical_count = st.physical_count + physAdds ops ∧
      countPhysical st3.entities ≤ st3.physical_count := by
  induction ops generalizing st with
  | nil =>
    intro st3 h3
    unfold runOps at h3
    cases h3
    exact ⟨by simp [physAdds, opEnts], hcnt⟩
  | cons op rest ih =>
    intro st3 h3
    cases op with
    | add e =>
      unfold runOps at h3
      have hplainE : plainEnt e := hadd e (List.mem_cons_self _ _)
      have haddrest : ∀ e2 ∈ opEnts rest, plainEnt e2 :=
        fun e2 he2 => hadd e2 (List.mem_cons_of_mem _ he2)
      have hres := ih (add_entity st e) haddrest
        (NodupKeys_insertEnt _ _ _ hn)
        (by
          intro p hp2
          rcases mem_insertEnt _ _ _ p hp2 with rfl | hp3
          · rfl
          · exact hok p hp3)
        (by
          intro p hp2
          rcases mem_insertEnt _ _ _ p hp2 with rfl | hp3
          · exact hplainE
          · exact hp p hp3)
        (by
          refine Nat.le_trans (countPhysical_insertEnt_le _ _ _) ?_
          unfold add_entity
          dsimp only
          by_cases hph : e.physical = true
          · rw [if_pos hph, if_pos hph]
            omega
          · rw [if_neg hph, if_neg hph]
            omega)
        st3 h3
      refine ⟨?_, hres.2⟩
      rw [hres.1]
      have hpa : physAdds (Op.add e :: rest) =
          physAdds rest + (if e.physical = true then 1 else 0) := by
        simp [physAdds, opEnts, List.countP_cons]
      rw [hpa]
      unfold add_entity
      dsimp only
      by_cases hph : e.physical = true
      · rw [if_pos hph, if_pos hph]
        omega
      · rw [if_neg hph, if_neg hph]
        omega
    | animate =>
      unfold runOps at h3
      obtain ⟨st2, heq, hn2, hok2, hp2, hcnt2, hpc2, _, _⟩ := animate_plain H st hn hok hp
      rw [heq] at h3
      dsimp only at h3
      have hres := ih st2 (fun e2 he2 => hadd e2 he2) hn2 hok2 hp2
        (by rw [hpc2]; exact Nat.le_trans hcnt2 hcnt) st3 h3
      rw [show physAdds (Op.animate :: rest) = physAdds rest from rfl]
      rw [← hpc2]
      exact hres

/-- C5 (amended): after every sequence of `add_entity` / `animate` calls
on plain (hook-free) entities, `physical_count` equals the cumulative
number of physical entities passed to `add_entity` (it is incremented on
insert and never decremented on removal), and it is an upper bound on -
not in general equal to - the number of physical entities currently in
the entity map. -/
theorem physical_count_amended (H : Hooks) (ops : List Op) (w h : Int)
    (st3 : Animation) (hadd : ∀ e ∈ opEnts ops, plainEnt e)
    (hrun : runOps H ops (initState w h) = some st3) :
    st3.physical_count = physAdds ops ∧
    countPhysical st3.entities ≤ st3.physical_count := by
  have hres := runOps_plain_inv H ops (initState w h) hadd
    (by simp [initState, NodupKeys])
    (by intro p hp2; simp [initState] at hp2)
    (by intro p hp2; simp [initState] at hp2)
    (by simp [initState, countPhysical])
    st3 hrun
  rw [show (initState w h).physical_count = 0 from rfl] at hres
  rw [Nat.zero_add] at hres
  exact hres

/-- Witness for the amended C5: one physical insert then one frame leaves
`physical_count = physAdds = 1` with zero physical entities remaining. -/
theorem physical_count_amended_witness :
    (∀ e ∈ opEnts opsC5, plainEnt e) ∧
    runOps noHooks opsC5 (initState 80 24) = some stC5res ∧
    (stC5res.physical_count = physAdds opsC5 ∧
     countPhysical stC5res.entities ≤ stC5res.physical_count) := by
  have hadd : ∀ e ∈ opEnts opsC5, plainEnt e := by
    intro e he
    rw [show opEnts opsC5 = [entC5] from rfl, List.mem_singleton] at he
    subst he
    exact ⟨rfl, rfl, rfl, rfl, rfl⟩
  have hrun : runOps noHooks opsC5 (initState 80 24) = some stC5res := by decide
  exact ⟨hadd, hrun, physical_count_amended noHooks opsC5 80 24 stC5res hadd hrun⟩

/- ------------------------------------------------------------------ -/
/- C4: death-by-reference and iteration order                          -/
/- ------------------------------------------------------------------ -/

/-- Counterexample for C4: in `stC4` the map iteration order processes B
(with `die_when_entity_gone = "A"`) before A (with
`die_after_n_frames = 1`).  One `animate` call removes A but leaves B in
the map: same-frame death propagation depends on the processing order,
contradicting "regardless of the order". -/
theorem die_entity_order_cex :
    (animate noHooks stC4).map
      (fun r => ((lookupEnt r.1.entities nmB).isSome, (lookupEnt r.1.entities nmA).isSome)) =
      some (true, false) := by
  decide

/-- C4 (amended): for plain entities under a zero `physical_count`, if A
(with `die_after_n_frames = 1`) is processed before B (with
`die_when_entity_gone = A.name`) in the behavior-callback pass, then one
`animate` call removes both A and B in that same frame's cleanup stage;
the counterexample shows the removal of B does not happen when B is
processed first, so the order qualifier cannot be dropped. -/
theorem die_entity_amended (H : Hooks) (st : Animation) (A B : Entity)
    (l1 l2 l3 : List (String × Entity))
    (hsplit : st.entities = l1 ++ (A.name, A) :: (l2 ++ (B.name, B) :: l3))
    (hn : NodupKeys st.entities)
    (hp : ∀ p ∈ st.entities, plainEnt p.2)
    (hA : A.die_frame = some 1) (hB : B.die_entity = some A.name)
    (hpc : st.physical_count = 0) :
    ∃ st2 log, animate H st = some (st2, log) ∧
      lookupEnt st2.entities A.name = none ∧
      lookupEnt st2.entities B.name = none := by
  have heq := animate_plain_skipcoll H st hn hp hpc
  have hmn : NodupKeys (st.entities.map (fun p => (p.1, plainUpd p.2))) := by
    unfold NodupKeys
    rw [keys_mapUpd]
    exact hn
  have hAdel : A.name ∈
      delFold (st.entities.map Prod.fst) st.width st.height st.entities [] := by
    rw [hsplit]
    exact delFold_mem_frame _ _ _ l1 (l2 ++ (B.name, B) :: l3) A.name A [] hA
  have hBdel : B.name ∈
      delFold (st.entities.map Prod.fst) st.width st.height st.entities [] := by
    have hsplit2 : st.entities = (l1 ++ (A.name, A) :: l2) ++ (B.name, B) :: l3 := by
      rw [hsplit]
      simp [List.append_assoc]
    rw [hsplit2]
    refine delFold_mem_entity _ _ _ (l1 ++ (A.name, A) :: l2) l3 B.name B [] A.name hB ?_
    exact delFold_mem_frame _ _ _ l1 l2 A.name A [] hA
  refine ⟨_, [], heq, ?_, ?_⟩
  · exact lookupEnt_removeAllEnt_none _ _ _ hmn hAdel
  · exact lookupEnt_removeAllEnt_none _ _ _ hmn hBdel

/-- Witness for the amended C4: order [A, B] removes both in one frame. -/
theorem die_entity_amended_witness :
    (stC4W.entities = [] ++ (entC4A.name, entC4A) :: ([] ++ (entC4B.name, entC4B) :: []) ∧
     entC4A.die_frame = some 1 ∧ entC4B.die_entity = some entC4A.name ∧
     stC4W.physical_count = 0) ∧
    (animate noHooks stC4W).map
      (fun r => ((lookupEnt r.1.entities nmA).isSome, (lookupEnt r.1.entities nmB).isSome)) =
      some (false, false) := by
  obtain ⟨st2, log, heq, hA2, hB2⟩ := die_entity_amended noHooks stC4W entC4A entC4B
    [] [] [] rfl (by simp only [NodupKeys]; decide) (by simp only [plainEnt]; decide) rfl rfl rfl
  refine ⟨⟨rfl, rfl, rfl, rfl⟩, ?_⟩
  rw [heq]
  show some ((lookupEnt st2.entities nmA).isSome, (lookupEnt st2.entities nmB).isSome) =
    some (false, false)
  rw [show nmA = entC4A.name from rfl, show nmB = entC4B.name from rfl, hA2, hB2]
  rfl

/- ------------------------------------------------------------------ -/
/- C7: death by countdown, death callback after removal                -/
/- ------------------------------------------------------------------ -/

theorem lookupEnt_mapUpd (m : List (String × Entity)) (k : String) :
    lookupEnt (m.map fun p => (p.1, plainUpd p.2)) k = (lookupEnt m k).map plainUpd := by
  induction m with
  | nil => rfl
  | cons q rest ih =>
    obtain ⟨k1, e⟩ := q
    by_cases h1 : k1 = k
    · simp [lookupEnt, h1]
    · simp [lookupEnt, h1, ih]

theorem remove_deleted_single_death (H : Hooks) (del : List String) (st : Animation)
    (nm : String) (e0 : Entity)
    (hH : ∀ ent st2, (H.runDeathCallback ent st2).2.entities = st2.entities)
    (hdel : del.Nodup) (hmem : nm ∈ del)
    (hn : NodupKeys st.entities)
    (hl : lookupEnt st.entities nm = some e0)
    (hd : e0.has_death_callback = true)
    (hf : ∀ p ∈ st.entities, p.1 ≠ nm → p.2.has_death_callback = false) :
    ∃ snap st2,
      remove_deleted_entries H del st = (st2, [Event.death nm snap]) ∧
      lookupEnt snap nm = none ∧
      lookupEnt st2.entities nm = none ∧
      ∀ p ∈ st2.entities, p ∈ st.entities := by
  induction del generalizing st with
  | nil => cases hmem
  | cons n rest ih =>
    rcases List.mem_cons.mp hmem with rfl | hmem2
    · unfold remove_deleted_entries
      dsimp only
      rw [show (removeEnt st.entities nm).1 = some e0 from by rw [removeEnt_fst]; exact hl]
      dsimp only
      rw [if_pos hd]
      have hsnap : lookupEnt (removeEnt st.entities nm).2 nm = none :=
        lookupEnt_removeEnt_self _ _ hn
      have hq : (H.runDeathCallback { e0 with has_death_callback := false }
          { st with entities := (removeEnt st.entities nm).2 }).2.entities =
          (removeEnt st.entities nm).2 := hH _ _
      have hnone : ∀ p ∈ (H.runDeathCallback { e0 with has_death_callback := false }
          { st with entities := (removeEnt st.entities nm).2 }).2.entities,
          p.2.has_death_callback = false := by
        intro p hp2
        rw [hq] at hp2
        refine hf p (mem_removeEnt_subset _ _ _ hp2) ?_
        intro hpn
        exact (lookupEnt_eq_none_iff _ _).mp hsnap p hp2 hpn
      rw [remove_deleted_no_death H rest _ hnone]
      refine ⟨(removeEnt st.entities nm).2, _, rfl, hsnap, ?_, ?_⟩
      · rw [lookupEnt_eq_none_iff]
        intro p hp2
        dsimp only at hp2
        have hp3 : p ∈ (removeEnt st.entities nm).2 := by
          rw [← hq]
          exact mem_removeAllEnt_subset _ _ _ hp2
        exact (lookupEnt_eq_none_iff _ _).mp hsnap p hp3
      · intro p hp2
        dsimp only at hp2
        have hp3 : p ∈ (removeEnt st.entities nm).2 := by
          rw [← hq]
          exact mem_removeAllEnt_subset _ _ _ hp2
        exact mem_removeEnt_subset _ _ _ hp3
    · have hne : n ≠ nm := by
        intro hnn
        subst hnn
        exact (List.nodup_cons.mp hdel).1 hmem2
      unfold remove_deleted_entries
      dsimp only
      cases hr : (removeEnt st.entities n).1 with
      | some e1 =>
        dsimp only
        have hmem1 : (n, e1) ∈ st.entities :=
          lookupEnt_some_mem _ _ _ (by rw [← removeEnt_fst]; exact hr)
        have hf1 : ¬ e1.has_death_callback = true := by
          rw [hf (n, e1) hmem1 hne]
          exact Bool.false_ne_true
        rw [if_neg hf1]
        obtain ⟨snap, st2, hEq, h1, h2, h3⟩ :=
          ih { st with entities := (removeEnt st.entities n).2 }
            (List.nodup_cons.mp hdel).2 hmem2
            (NodupKeys_removeEnt _ _ hn)
            (by rw [lookupEnt_removeEnt_ne _ _ _ (fun hh => hne hh.symm)]; exact hl)
            (fun p hp hpn => hf p (mem_removeEnt_subset _ _ _ hp) hpn)
        refine ⟨snap, st2, ?_, h1, h2,
          fun p hp => mem_removeEnt_subset _ _ _ (h3 p hp)⟩
        rw [hEq]
      | none =>
        dsimp only
        exact ih st (List.nodup_cons.mp hdel).2 hmem2 hn hl hf

/-- C7: in a map of entities that trigger no hooks except one entity `e`
carrying a death callback, with `e.die_frame = some 1` (and `die_time`
unset everywhere, no followers, a zero `physical_count` cache, and death
callbacks that leave the entity map unchanged), one `animate` call removes
`e` from the entity map and the frame's event log is exactly one death
event for `e.name`, whose recorded live set no longer contains `e.name`:
the death callback runs exactly once, after removal, and does not see the
entity in the set. -/
theorem die_frame_one_death (H : Hooks) (st : Animation) (e : Entity)
    (hH : ∀ ent st2, (H.runDeathCallback ent st2).2.entities = st2.entities)
    (hn : NodupKeys st.entities)
    (hl : lookupEnt st.entities e.name = some e)
    (hframe : e.die_frame = some 1)
    (hdc : e.has_death_callback = true)
    (htame : ∀ p ∈ st.entities, tame p.2)
    (hfollow : ∀ p ∈ st.entities, p.2.follow_entity = none)
    (hflags : ∀ p ∈ st.entities, p.1 ≠ e.name → p.2.has_death_callback = false)
    (hpc : st.physical_count = 0) :
    ∃ st2 snap, animate H st = some (st2, [Event.death e.name snap]) ∧
      lookupEnt snap e.name = none ∧
      lookupEnt st2.entities e.name = none := by
  have hdo := do_callbacks_tame H st htame
  have hmn : NodupKeys (st.entities.map (fun p => (p.1, plainUpd p.2))) := by
    unfold NodupKeys
    rw [keys_mapUpd]
    exact hn
  have hlmap : lookupEnt (st.entities.map (fun p => (p.1, plainUpd p.2))) e.name =
      some (plainUpd e) := by
    rw [lookupEnt_mapUpd, hl]
    rfl
  have hd2 : (plainUpd e).has_death_callback = true := by
    rw [plainUpd_death]
    exact hdc
  have hflags2 : ∀ p ∈ st.entities.map (fun p => (p.1, plainUpd p.2)),
      p.1 ≠ e.name → p.2.has_death_callback = false := by
    intro p hp2 hpn
    obtain ⟨q, hq, hqe⟩ := List.mem_map.mp hp2
    rw [← hqe]
    dsimp only
    rw [plainUpd_death]
    refine hflags q hq ?_
    intro hq1
    refine hpn ?_
    rw [← hqe]
    exact hq1
  have hmemdel : e.name ∈
      delFold (st.entities.map Prod.fst) st.width st.height st.entities [] := by
    obtain ⟨s, t, hst⟩ := List.append_of_mem (lookupEnt_some_mem _ _ _ hl)
    rw [hst]
    exact delFold_mem_frame _ _ _ s t e.name e [] hframe
  have hdelnodup : (delFold (st.entities.map Prod.fst) st.width st.height
      st.entities []).Nodup := delFold_nodup _ _ _ _ _ List.nodup_nil
  obtain ⟨snap, st2, hEq, h1, h2, h3⟩ := remove_deleted_single_death H
    (delFold (st.entities.map Prod.fst) st.width st.height st.entities [])
    { st with entities := st.entities.map (fun p => (p.1, plainUpd p.2)) }
    e.name (plainUpd e) hH hdelnodup hmemdel hmn hlmap hd2 hflags2
  have hfol2 : ∀ p ∈ st2.entities, p.2.follow_entity = none := by
    intro p hp2
    obtain ⟨q, hq, hqe⟩ := List.mem_map.mp (h3 p hp2)
    rw [← hqe]
    dsimp only
    rw [plainUpd_follow]
    exact hfollow q hq
  refine ⟨st2, snap, ?_, h1, h2⟩
  unfold animate
  rw [hdo]
  dsimp only
  rw [if_neg (by simp [hpc])]
  dsimp only
  rw [hEq]
  dsimp only
  rw [move_followers_id _ hfol2]
  rfl

/-- Witness for C7 at the one-entity state `stC7`. -/
theorem die_frame_one_death_witness :
    (lookupEnt stC7.entities entC7.name = some entC7 ∧ entC7.die_frame = some 1 ∧
     entC7.has_death_callback = true ∧ stC7.physical_count = 0) ∧
    (animate noHooks stC7).map
      (fun r => ((lookupEnt r.1.entities nmE).isSome, r.2.length)) = some (false, 1) := by
  obtain ⟨st2, snap, heq, h1, h2⟩ := die_frame_one_death noHooks stC7 entC7
    (fun ent st2 => rfl) (by simp only [NodupKeys]; decide) rfl rfl rfl
    (by simp only [tame]; decide) (by decide) (by decide) rfl
  refine ⟨⟨rfl, rfl, rfl, rfl⟩, ?_⟩
  rw [heq]
  show some ((lookupEnt st2.entities nmE).isSome, 1) = some (false, 1)
  rw [show nmE = entC7.name from rfl, h2]
  rfl

/- ------------------------------------------------------------------ -/
/- C8: follower propagation                                            -/
/- ------------------------------------------------------------------ -/

theorem set_x_pos (e : Entity) (v w : Int) (hw : 0 < w) :
    set_x e v w = some { e with pos := { e.pos with x := wrapVal e.wrap v w } } := by
  unfold set_x wrapVal
  by_cases hwr : e.wrap = true
  · rw [if_pos hwr, if_pos hwr]
    by_cases hrange : v ≥ w ∨ v < 0
    · rw [if_pos hrange, if_pos hrange,
        if_neg (show ¬ (w = 0 ∨ (v = -32768 ∧ w = -1)) by omega)]
    · rw [if_neg hrange, if_neg hrange]
  · rw [if_neg hwr, if_neg hwr]

theorem set_y_pos (e : Entity) (v h : Int) (hh : 0 < h) :
    set_y e v h = some { e with pos := { e.pos with y := wrapVal e.wrap v h } } := by
  unfold set_y wrapVal
  by_cases hwr : e.wrap = true
  · rw [if_pos hwr, if_pos hwr]
    by_cases hrange : v ≥ h ∨ v < 0
    · rw [if_pos hrange, if_pos hrange,
        if_neg (show ¬ (h = 0 ∨ (v = -32768 ∧ h = -1)) by omega)]
    · rw [if_neg hrange, if_neg hrange]
  · rw [if_neg hwr, if_neg hwr]

theorem mfApply_eq (f ldr : Entity) (w h : Int) (hw : 0 < w) (hh : 0 < h)
    (hfr : f.follow_offset.frame = none) :
    mfApply f ldr w h = some { f with pos := followedPos f ldr w h } := by
  unfold mfApply followedPos
  rw [hfr]
  cases hx : f.follow_offset.x with
  | some dx =>
    dsimp only
    rw [set_x_pos _ _ _ hw]
    dsimp only
    cases hy : f.follow_offset.y with
    | some dy =>
      dsimp only
      rw [set_y_pos _ _ _ hh]
      dsimp only
      cases hz : f.follow_offset.z <;> rfl
    | none =>
      dsimp only
      cases hz : f.follow_offset.z <;> rfl
  | none =>
    dsimp only
    cases hy : f.follow_offset.y with
    | some dy =>
      dsimp only
      rw [set_y_pos _ _ _ hh]
      dsimp only
      cases hz : f.follow_offset.z <;> rfl
    | none =>
      dsimp only
      cases hz : f.follow_offset.z <;> rfl

theorem followers_singleton (m : List (String × Entity)) (f : Entity) (L : String)
    (hn : NodupKeys m) (hf : lookupEnt m f.name = some f)
    (hfe : f.follow_entity = some L)
    (hothers : ∀ p ∈ m, p.1 ≠ f.name → p.2.follow_entity = none) :
    m.filterMap mfCollect = [({ f with follow_entity := none }, L)] := by
  induction m with
  | nil => simp [lookupEnt] at hf
  | cons q rest ih =>
    obtain ⟨k1, e⟩ := q
    unfold NodupKeys at hn
    simp only [List.map_cons, List.nodup_cons] at hn
    by_cases h1 : k1 = f.name
    · have he : e = f := by
        simp only [lookupEnt, if_pos h1, Option.some.injEq] at hf
        exact hf
      subst he
      have hrest : rest.filterMap mfCollect = [] := by
        rw [List.filterMap_eq_nil_iff]
        intro p hp
        have hne : p.1 ≠ e.name := by
          intro hpk
          exact hn.1 (List.mem_map.mpr ⟨p, hp, hpk.trans h1.symm⟩)
        unfold mfCollect
        rw [hothers p (List.mem_cons_of_mem _ hp) hne]
      rw [List.filterMap_cons]
      rw [show mfCollect (k1, e) = some ({ e with follow_entity := none }, L) from by
        unfold mfCollect
        rw [hfe]]
      rw [hrest]
    · have hnone : mfCollect (k1, e) = none := by
        unfold mfCollect
        rw [hothers (k1, e) (List.mem_cons_self _ _) h1]
      rw [List.filterMap_cons, hnone]
      refine ih hn.2 ?_ ?_
      · simpa [lookupEnt, h1] using hf
      · exact fun p hp hpn => hothers p (List.mem_cons_of_mem _ hp) hpn

/-- C8: if exactly one entity `f` of the map has a leader reference
(naming `L`) and the canvas bounds are positive (and no frame offset is
configured), then after `move_followers`: when the leader is present, each
axis with a configured offset is set to the leader coordinate plus the
offset through the wrap-respecting setter (`followedPos`), axes without an
offset are unchanged, and every other entity is untouched; when the leader
is absent, the state is returned entirely unchanged and no error is
raised. -/
theorem move_followers_spec (st : Animation) (f : Entity) (L : String)
    (hn : NodupKeys st.entities)
    (hf : lookupEnt st.entities f.name = some f)
    (hfe : f.follow_entity = some L)
    (hothers : ∀ p ∈ st.entities, p.1 ≠ f.name → p.2.follow_entity = none)
    (hw : 0 < st.width) (hh : 0 < st.height)
    (hfr : f.follow_offset.frame = none) :
    (∀ ldr, lookupEnt st.entities L = some ldr →
      ∃ st2, move_followers st = some st2 ∧
        lookupEnt st2.entities f.name =
          some { f with pos := followedPos f ldr st.width st.height } ∧
        (∀ n, n ≠ f.name → lookupEnt st2.entities n = lookupEnt st.entities n) ∧
        st2.width = st.width ∧ st2.height = st.height ∧
        st2.physical_count = st.physical_count) ∧
    (lookupEnt st.entities L = none → move_followers st = some st) := by
  have hsing := followers_singleton st.entities f L hn hf hfe hothers
  constructor
  · intro ldr hldr
    have happ : mfApply { f with follow_entity := none } ldr st.width st.height =
        some { ({ f with follow_entity := none } : Entity) with
          pos := followedPos f ldr st.width st.height } := by
      rw [mfApply_eq { f with follow_entity := none } ldr st.width st.height hw hh hfr]
      rfl
    have hre : ({ ({ f with follow_entity := none } : Entity) with
        pos := followedPos f ldr st.width st.height, follow_entity := some L } : Entity) =
        { f with pos := followedPos f ldr st.width st.height } := by
      rw [← hfe]
    refine ⟨{ st with entities := updateEnt st.entities f.name { f with pos := followedPos f ldr st.width st.height } }, ?_, ?_, ?_, rfl, rfl, rfl⟩
    · unfold move_followers
      rw [hsing]
      unfold mfGo
      dsimp only
      rw [hldr]
      dsimp only
      rw [happ]
      dsimp only
      rw [hre]
      rfl
    · rw [lookupEnt_updateEnt_self st.entities f.name _ f hf]
    · intro n hnn
      exact lookupEnt_updateEnt_ne st.entities f.name n _ hnn
  · intro hldr
    have hre : ({ ({ f with follow_entity := none } : Entity) with
        follow_entity := some L } : Entity) = f := by
      rw [← hfe]
    unfold move_followers
    rw [hsing]
    unfold mfGo
    dsimp only
    rw [hldr]
    dsimp only
    rw [hre, updateEnt_eq_of_lookup st.entities f.name f hf]
    rfl

/-- Witness for C8: leader at (5,5,0), follower at (1,9,4) with only an x
offset of 2 ends at (7,9,4); the y and z axes are unchanged. -/
theorem move_followers_spec_witness :
    (lookupEnt stC8.entities entC8F.name = some entC8F ∧
     entC8F.follow_entity = some nmL ∧
     lookupEnt stC8.entities nmL = some entC8L ∧
     followedPos entC8F entC8L stC8.width stC8.height = { x := 7, y := 9, z := 4 }) ∧
    (move_followers stC8).map (fun s => (lookupEnt s.entities nmF).map (fun g => g.pos)) =
      some (some { x := 7, y := 9, z := 4 }) := by
  obtain ⟨st2, heq, hlook, _, _, _, _⟩ :=
    (move_followers_spec stC8 entC8F nmL (by simp only [NodupKeys]; decide) rfl rfl
      (by decide) (by decide) (by decide) rfl).1 entC8L rfl
  refine ⟨⟨rfl, rfl, rfl, by decide⟩, ?_⟩
  rw [heq]
  show some ((lookupEnt st2.entities nmF).map (fun g => g.pos)) =
    some (some { x := 7, y := 9, z := 4 })
  rw [show nmF = entC8F.name from rfl, hlook]
  show some (some (followedPos entC8F entC8L stC8.width stC8.height)) =
    some (some { x := 7, y := 9, z := 4 })
  rw [show followedPos entC8F entC8L stC8.width stC8.height =
    { x := 7, y := 9, z := 4 } from by decide]

end TermAnim
